import Mathlib

/-!
Verification development for the concentric-ring marker detector
(`CCircleDetect.cpp` of the equids repository).

The detector is embedded shallowly as a pure Lean function.  Modelling
conventions:

* C `int` values become `ℤ`; pixel indices are `ℤ` (C pointer arithmetic).
* C `float` values become exact rationals `ℚ`.  The three transcendental
  primitives the code uses (`M_PI`, `sqrt`, `atan2`) are abstracted into a
  `FloatOps` parameter, so the whole detector is an executable function; a
  concrete run instantiates `FloatOps` with rational approximations
  (`qSqrt` below is exact on perfect rational squares).
* The static label buffer is a total map `ℤ → ℤ`; the static flood-fill
  queue together with its `queueEnd` cursor is a `List ℤ` (the C code
  rewinds `queueEnd` to 0 before each outer flood fill and only ever reads
  indices below `queueEnd`, so the list models exactly the live window).
* The class `CCircleDetect` becomes the record `Det`; `findSegment`
  becomes a pure function `Det → CRawImage → SSegment → FindOut`.
* Integer division sites in the C code only ever see non-negative
  operands, where Lean's `/` on `ℤ` agrees with C; the single
  float-to-int cast is modelled with truncation (`qTrunc`).
* The fields of `SSegment` that the C code leaves uninitialised are
  modelled as 0/false defaults.
* `MAX_SEGMENTS` and the dimensions come from the missing header; they are
  parameters of the model (`Params`).
-/

/-- Abstracted floating-point primitives used by the detector. -/
structure FloatOps where
  pi : ℚ
  sqrt : ℚ → ℚ
  atan2 : ℚ → ℚ → ℚ

/-- Fuel-bounded integer Newton iteration for square roots (the fuel is
ample for any input below `2 ^ 256`; the iteration is monotonically
decreasing and stops at the integer square root). -/
def natSqrtIter : ℕ → ℕ → ℕ → ℕ
  | 0, _, g => g
  | fuel + 1, n, g =>
    let next := (g + n / g) / 2
    if next < g then natSqrtIter fuel n next else g

/-- Integer square root by fuelled Newton iteration. -/
def natSqrtFuel (n : ℕ) : ℕ := if n ≤ 1 then n else natSqrtIter 256 n (n / 2)

/-- Executable rational square root: exact on perfect rational squares,
otherwise accurate to about `10 ^ (-6)` relative error.  Used to
instantiate `FloatOps` for concrete runs. -/
def qSqrt (q : ℚ) : ℚ :=
  if q ≤ 0 then 0
  else ((natSqrtFuel (q.num.toNat * q.den * 10 ^ 12) : ℤ) : ℚ) / ((10 ^ 6 : ℚ) * (q.den : ℚ))

/-- Truncation toward zero, the semantics of the C cast `(int)` on a float. -/
def qTrunc (q : ℚ) : ℤ := Int.tdiv q.num (q.den : ℤ)

/-- One region record, mirroring struct `SSegment` field by field. -/
structure SSegment where
  x : ℚ := 0
  y : ℚ := 0
  size : ℤ := 0
  maxx : ℤ := 0
  maxy : ℤ := 0
  minx : ℤ := 0
  miny : ℤ := 0
  mean : ℤ := 0
  type : ℤ := 0
  roundness : ℚ := 0
  bwRatio : ℚ := 0
  m0 : ℚ := 0
  m1 : ℚ := 0
  v0 : ℚ := 0
  v1 : ℚ := 0
  horizontal : ℚ := 0
  angle : ℚ := 0
  round : Bool := false
  valid : Bool := false
deriving DecidableEq

/-- Construction-time parameters: image dimensions, the configured
inner/outer diameter ratio, and the `MAX_SEGMENTS` capacity (declared in
the header, which is not among the sources; the spec describes it as the
fixed maximum number of regions per frame). -/
structure Params where
  width : ℕ
  height : ℕ
  diameterRatio : ℚ
  maxSegments : ℕ
deriving DecidableEq

/-- Number of pixels, `len = width * height`. -/
def Params.len (P : Params) : ℕ := P.width * P.height

/-- Constructor constant `minSize`. -/
def minSize : ℤ := 10

/-- Constructor constant `centerDistanceToleranceRatio`. -/
def centerDistanceToleranceRatio : ℚ := 11 / 10

/-- Constructor constant `centerDistanceToleranceAbs`. -/
def centerDistanceToleranceAbs : ℚ := 5

/-- Constructor constant `circularTolerance`. -/
def circularTolerance : ℚ := 3 / 10

/-- Constructor constant `ratioTolerance`. -/
def ratioTolerance : ℚ := 2 / 5

/-- Constructor constant `circularityTolerance`. -/
def circularityTolerance : ℚ := 1 / 10

/-- Constructor-derived constant `outerAreaRatio = pi * (1 - d^2) / 4`. -/
def outerAreaRatio (P : Params) (fops : FloatOps) : ℚ :=
  fops.pi * (1 - P.diameterRatio * P.diameterRatio) / 4

/-- Constructor-derived constant `innerAreaRatio = pi / 4`. -/
def innerAreaRatio (fops : FloatOps) : ℚ := fops.pi / 4

/-- Constructor-derived constant `areasRatio = (1 - d^2) / d^2`. -/
def areasRatio (P : Params) : ℚ :=
  (1 - P.diameterRatio * P.diameterRatio) / (P.diameterRatio * P.diameterRatio)

/-- A raw frame: packed 3-samples-per-pixel data, addressed linearly. -/
structure CRawImage where
  data : ℤ → ℤ

/-- Channel sum of pixel `p`, the quantity compared against the threshold. -/
def pixSum (img : CRawImage) (p : ℤ) : ℤ :=
  img.data (3 * p) + img.data (3 * p + 1) + img.data (3 * p + 2)

/-- Detector state: the static buffers and queue, the per-instance
members, and the tracking/threshold controller state. -/
structure Det where
  buffer : ℤ → ℤ
  queue : List ℤ
  queueStart : ℕ
  queueOldStart : ℕ
  numSegments : ℕ
  segments : ℕ → SSegment
  threshold : ℤ
  lastThreshold : ℤ
  numFailed : ℤ
  maxFailed : ℤ
  track : Bool
  lastTrackOK : Bool
  debug : Bool
  draw : Bool
  drawAll : Bool

/-- The part of the detector state read and written by the raster scan of
`findSegment` (everything except the failure/tracking controller fields). -/
structure ScanState where
  buffer : ℤ → ℤ
  queue : List ℤ
  queueStart : ℕ
  queueOldStart : ℕ
  numSegments : ℕ
  segments : ℕ → SSegment
  threshold : ℤ

/-- Bounding-box accumulator local to one `examineSegment` call. -/
structure Box where
  minx : ℤ
  maxx : ℤ
  miny : ℤ
  maxy : ℤ
deriving DecidableEq

/-- Update one slot of the segment array. -/
def updateSeg (s : ScanState) (k : ℕ) (f : SSegment → SSegment) : ScanState :=
  { s with segments := Function.update s.segments k (f (s.segments k)) }

/-- The list `[a, a+1, ..., b-1]` of integers, used to model C `for` loops. -/
def intRange (a b : ℤ) : List ℤ := (List.range (b - a).toNat).map (fun k : ℕ => a + (k : ℤ))

/-- `changeThreshold` (lines 63-74): from the current failure count,
compute the halving-step `div`-loop, the new threshold, and the
return value `step > 16`.  Returns (new threshold, return value). -/
def ctDivNat : ℕ → ℕ
  | 0 => 1
  | 1 => 1
  | n + 2 => 2 * ctDivNat ((n + 2) / 2)

/-- The `div` computed by `changeThreshold`'s halving loop, on `ℤ`. -/
def ctDiv (n : ℤ) : ℤ := (ctDivNat n.toNat : ℤ)

/-- The threshold and boolean result of `changeThreshold`, as a function
of the failure counter it reads. -/
def changeThresholdFn (n : ℤ) : ℤ × Bool :=
  let div := ctDiv n
  let step := 256 / div
  (3 * (step * (n - div) + step / 2), decide (step > 16))

/-- `bufferCleanup` (lines 177-201), acting on the buffer map.  The
`memset` is modelled pointwise on `[0, len)`; the border loops and the
margin loops are modelled as the fold of the individual writes. -/
def fullCleanup (P : Params) (b : ℤ → ℤ) : ℤ → ℤ :=
  let pos : ℤ := ((P.height : ℤ) - 1) * (P.width : ℤ)
  let b1 : ℤ → ℤ := fun i => if 0 ≤ i ∧ i < (P.len : ℤ) then 0 else b i
  let b2 := (intRange 0 (P.width : ℤ)).foldl
    (fun acc i => Function.update (Function.update acc i (-1000)) (pos + i) (-1000)) b1
  (intRange 0 (P.height : ℤ)).foldl
    (fun acc i =>
      Function.update (Function.update acc ((P.width : ℤ) * i) (-1000))
        ((P.width : ℤ) * i + (P.width : ℤ) - 1) (-1000)) b2

/-- The local-margin branch of `bufferCleanup`. -/
def marginCleanup (P : Params) (b : ℤ → ℤ) (init : SSegment) : ℤ → ℤ :=
  let ix := max (init.minx - 2) 1
  let ax := min (init.maxx + 2) ((P.width : ℤ) - 2)
  let iy := max (init.miny - 2) 1
  let ay := min (init.maxy + 2) ((P.height : ℤ) - 2)
  (intRange iy ay).foldl
    (fun acc y =>
      let pos := y * (P.width : ℤ)
      (intRange ix ax).foldl (fun acc2 x => Function.update acc2 (pos + x) 0) acc) b

/-- `bufferCleanup`: full clear with border sentinels, unless a valid
segment is being tracked and the last track succeeded. -/
def bufferCleanup (P : Params) (track lastTrackOK : Bool) (b : ℤ → ℤ)
    (init : SSegment) : ℤ → ℤ :=
  if init.valid = false ∨ track = false ∨ lastTrackOK = false then fullCleanup P b
  else marginCleanup P b init

/-- The canonical fully-cleared buffer (all cells of a freshly constructed
detector): zero everywhere, then the full cleanup. -/
def cleanBuffer (P : Params) : ℤ → ℤ := fullCleanup P (fun _ => 0)

/-- One direction probe of the flood fill (one of the four neighbour
blocks of lines 102-141): classify the neighbour lazily, and if it
matches the fill type, enqueue it, update the bounding box and relabel
it with the region ordinal. -/
def touchNeighbor (img : CRawImage) (ty lab : ℤ) (sb : ScanState × Box) (pos : ℤ)
    (updBox : Box → Box) : ScanState × Box :=
  let s := sb.1
  let s := if s.buffer pos = 0 then
      { s with buffer :=
          Function.update s.buffer pos ((if pixSum img pos > s.threshold then 1 else 0) - 2) }
    else s
  if s.buffer pos = ty then
    ({ s with queue := s.queue ++ [pos], buffer := Function.update s.buffer pos lab }, updBox sb.2)
  else (s, sb.2)

/-- One dequeue step of the flood-fill loop (lines 98-142). -/
def bfsStep (P : Params) (img : CRawImage) (ty lab : ℤ) (sb : ScanState × Box) :
    ScanState × Box :=
  let w : ℤ := (P.width : ℤ)
  let position := sb.1.queue.getD sb.1.queueStart 0
  let sb := ({ sb.1 with queueStart := sb.1.queueStart + 1 }, sb.2)
  let sb := touchNeighbor img ty lab sb (position + 1)
    (fun b => { b with maxx := max b.maxx ((position + 1) % w) })
  let sb := touchNeighbor img ty lab sb (position - 1)
    (fun b => { b with minx := min b.minx ((position - 1) % w) })
  let sb := touchNeighbor img ty lab sb (position - w)
    (fun b => { b with miny := min b.miny ((position - w) / w) })
  touchNeighbor img ty lab sb (position + w)
    (fun b => { b with maxy := max b.maxy ((position + w) / w) })

/-- The flood-fill loop: run `bfsStep` while the queue window is nonempty,
with enough fuel for any in-bounds fill. -/
def bfsRun (P : Params) (img : CRawImage) (ty lab : ℤ) :
    ℕ → ScanState × Box → ScanState × Box
  | 0, sb => sb
  | fuel + 1, sb =>
    if sb.1.queueStart < sb.1.queue.length then
      bfsRun P img ty lab fuel (bfsStep P img ty lab sb)
    else sb

/-- The pre-flood-fill part of `examineSegment` (lines 81-96): save
`queueOldStart`, allocate the next region ordinal, relabel and enqueue
the seed, and initialise the slot's center and flags. -/
def examSetup (P : Params) (s : ScanState) (ii : ℤ) : ScanState :=
  let w : ℤ := (P.width : ℤ)
  let slot := s.numSegments
  let lab : ℤ := (s.numSegments : ℤ) + 1
  let s1 : ScanState :=
    { s with
      queueOldStart := s.queueStart
      numSegments := s.numSegments + 1
      buffer := Function.update s.buffer ii lab }
  let s2 := updateSeg s1 slot
    (fun g =>
      { g with
        x := ((ii % w : ℤ) : ℚ)
        y := ((ii / w : ℤ) : ℚ)
        valid := false
        round := false })
  { s2 with queue := s2.queue ++ [ii] }

/-- The initial bounding box of a fill seeded at `ii` (line 91-92). -/
def examBox (P : Params) (ii : ℤ) : Box :=
  { minx := ii % (P.width : ℤ), maxx := ii % (P.width : ℤ),
    miny := ii / (P.width : ℤ), maxy := ii / (P.width : ℤ) }

/-- The post-flood-fill part of `examineSegment` (lines 144-174): record
the size, and if large enough the bounding box, type, bbox-center and
roundness; if also round enough, the mean brightness, with success. -/
def examFinish (_P : Params) (img : CRawImage) (areaRatio : ℚ) (slot : ℕ) (ty : ℤ)
    (sb : ScanState × Box) : Bool × ScanState :=
  let s := sb.1
  let box := sb.2
  let size : ℤ := (s.queue.length : ℤ) - (s.queueOldStart : ℤ)
  let s := updateSeg s slot (fun g => { g with size := size })
  if size > minSize then
    let s := updateSeg s slot
      (fun g =>
        { g with
          maxx := box.maxx
          maxy := box.maxy
          minx := box.minx
          miny := box.miny
          type := -ty })
    let vx := box.maxx - box.minx + 1
    let vy := box.maxy - box.miny + 1
    let s := updateSeg s slot
      (fun g =>
        { g with
          x := (((box.maxx + box.minx) / 2 : ℤ) : ℚ)
          y := (((box.maxy + box.miny) / 2 : ℤ) : ℚ) })
    let roundness : ℚ := ((vx * vy : ℤ) : ℚ) * areaRatio / (size : ℚ)
    let s := updateSeg s slot (fun g => { g with roundness := roundness })
    if roundness - circularTolerance < 1 ∧ roundness + circularTolerance > 1 then
      let meanSum : ℤ := ((s.queue.drop s.queueOldStart).map (pixSum img)).sum
      let s := updateSeg s slot (fun g => { g with round := true, mean := meanSum / size })
      (true, s)
    else (false, s)
  else (false, s)

/-- `examineSegment` (lines 76-175): flood-fill the region seeded at `ii`,
record its bounding box and size into the next segment slot, and if it is
large enough and round enough, compute its mean brightness and succeed. -/
def examineSegment (P : Params) (img : CRawImage) (s : ScanState) (ii : ℤ)
    (areaRatio : ℚ) : Bool × ScanState :=
  examFinish P img areaRatio s.numSegments (s.buffer ii)
    (bfsRun P img (s.buffer ii) ((s.numSegments : ℤ) + 1) P.len (examSetup P s ii, examBox P ii))

/-- The numeric quantities of the shape fit (lines 286-343 and 385-400):
union centroid, covariance eigenvalues and the pixel-leakage term, as
functions of the scan state at entry to the fit. -/
def fitSxy (P : Params) (s : ScanState) : ℚ × ℚ :=
  let w : ℤ := (P.width : ℤ)
  let innerPx := s.queue.drop s.queueOldStart
  let outerPx := s.queue.take s.queueOldStart
  let sx1 : ℚ := ((innerPx.map (fun p => ((p % w : ℤ) : ℚ))).sum)
  let sy1 : ℚ := ((innerPx.map (fun p => ((p / w : ℤ) : ℚ))).sum)
  let sx2 : ℚ := sx1 + ((outerPx.map (fun p => ((p % w : ℤ) : ℚ))).sum)
  let sy2 : ℚ := sy1 + ((outerPx.map (fun p => ((p / w : ℤ) : ℚ))).sum)
  (sx2 / (s.queue.length : ℚ), sy2 / (s.queue.length : ℚ))

/-- The two covariance eigenvalues `f0 ≥ f1` of the union pixel set
(lines 308-336), via the abstracted square root. -/
def fitEigen (P : Params) (fops : FloatOps) (s : ScanState) : ℚ × ℚ :=
  let w : ℤ := (P.width : ℤ)
  let sx := (fitSxy P s).1
  let sy := (fitSxy P s).2
  let cm0 : ℚ := ((s.queue.map (fun p => (((p % w : ℤ) : ℚ) - sx) * (((p % w : ℤ) : ℚ) - sx))).sum)
  let cm1 : ℚ := ((s.queue.map (fun p => (((p % w : ℤ) : ℚ) - sx) * (((p / w : ℤ) : ℚ) - sy))).sum)
  let cm2 : ℚ := ((s.queue.map (fun p => (((p / w : ℤ) : ℚ) - sy) * (((p / w : ℤ) : ℚ) - sy))).sum)
  let fm0 := cm0 / (s.queue.length : ℚ)
  let fm1 := cm1 / (s.queue.length : ℚ)
  let fm2 := cm2 / (s.queue.length : ℚ)
  let f0 := ((fm0 + fm2) + fops.sqrt ((fm0 + fm2) * (fm0 + fm2) - 4 * (fm0 * fm2 - fm1 * fm1))) / 2
  let f1 := ((fm0 + fm2) - fops.sqrt ((fm0 + fm2) * (fm0 + fm2) - 4 * (fm0 * fm2 - fm1 * fm1))) / 2
  (f0, f1)

/-- The pixel-leakage correction term `t` (lines 385-400): the smaller
root of `(1-r) t^2 + (-(m0i+m1i)-(m0o+m1o) r) t + (m0i m1i - m0o m1o r)`,
where `m0o, m1o` are the raw outer semi-axes `sqrt f0, sqrt f1` and
`m0i, m1i = sqrt ratio * m0o, sqrt ratio * m1o` are the inner estimates. -/
def leakageT (fops : FloatOps) (r f0 f1 ratio : ℚ) : ℚ :=
  let m0o := fops.sqrt f0
  let m1o := fops.sqrt f1
  let m0i := fops.sqrt ratio * m0o
  let m1i := fops.sqrt ratio * m1o
  let a := 1 - r
  let b := -(m0i + m1i) - (m0o + m1o) * r
  let c := m0i * m1i - m0o * m1o * r
  (-b - fops.sqrt (b * b - 4 * a * c)) / (2 * a)

/-- The `ratio` fed to the leakage correction (line 389-393):
inner size over total size. -/
def leakRatio (s : ScanState) : ℚ :=
  ((s.segments (s.numSegments - 1)).size : ℚ) /
    (((s.segments (s.numSegments - 2)).size + (s.segments (s.numSegments - 1)).size : ℤ) : ℚ)

/-- The unconditional first half of the shape fit (lines 292-342): store
the inner centroid in the outer slot (the index-confusion of lines
297-298), then the raw ellipse axes, orientation and size ratio in the
inner slot. -/
def fitPre (P : Params) (fops : FloatOps) (s : ScanState) : ScanState :=
  let n := s.numSegments
  let innerCnt : ℤ := (s.queue.length : ℤ) - (s.queueOldStart : ℤ)
  let w : ℤ := (P.width : ℤ)
  let innerPx := s.queue.drop s.queueOldStart
  let sx1 : ℚ := ((innerPx.map (fun p => ((p % w : ℤ) : ℚ))).sum)
  let sy1 : ℚ := ((innerPx.map (fun p => ((p / w : ℤ) : ℚ))).sum)
  let sx := (fitSxy P s).1
  let sy := (fitSxy P s).2
  let f0 := (fitEigen P fops s).1
  let fm0 : ℚ := ((s.queue.map (fun p => (((p % w : ℤ) : ℚ) - sx) * (((p % w : ℤ) : ℚ) - sx))).sum) / (s.queue.length : ℚ)
  let fm1 : ℚ := ((s.queue.map (fun p => (((p % w : ℤ) : ℚ) - sx) * (((p / w : ℤ) : ℚ) - sy))).sum) / (s.queue.length : ℚ)
  let nrm := fops.sqrt (fm1 * fm1 + (fm0 - f0) * (fm0 - f0))
  let s1 := updateSeg s (n - 2)
    (fun g => { g with x := sx1 / (innerCnt : ℚ), y := sy1 / (innerCnt : ℚ) })
  updateSeg s1 (n - 1)
    (fun g =>
      { g with
        m0 := fops.sqrt f0
        m1 := fops.sqrt (fitEigen P fops s).2
        v0 := -fm1 / nrm
        v1 := (fm0 - f0) / nrm
        bwRatio := ((s1.segments (n - 2)).size : ℚ) / ((s1.segments (n - 1)).size : ℚ) })

/-- The circularity measure tested at line 352, read off the state
produced by `fitPre`. -/
def fitCirc (fops : FloatOps) (s : ScanState) : ℚ :=
  fops.pi * 4 * (s.segments (s.numSegments - 1)).m0 * (s.segments (s.numSegments - 1)).m1 /
    (s.queue.length : ℚ)

/-- Mark segment slot `k` valid (lines 362-363). -/
def markValid (s : ScanState) (k : ℕ) : ScanState :=
  updateSeg s k (fun g => { g with valid := true })

/-- Recalibrate the threshold to the mean of the brightness means of the
matched pair of slots (lines 364-367). -/
def setThr (s : ScanState) : ScanState :=
  { s with threshold :=
      ((s.segments (s.numSegments - 2)).mean + (s.segments (s.numSegments - 1)).mean) / 2 }

/-- Store the leakage-corrected ring data — axes, bounding box, union
centroid, combined size, orientation — into the inner slot (lines
385-428).  The centroid and eigenvalues are those of the union pixel
queue, which the earlier steps of the fit leave untouched. -/
def storeRing (P : Params) (fops : FloatOps) (s : ScanState) : ScanState :=
  let n := s.numSegments
  let sx := (fitSxy P s).1
  let sy := (fitSxy P s).2
  let f0 := (fitEigen P fops s).1
  let f1 := (fitEigen P fops s).2
  let r := P.diameterRatio * P.diameterRatio
  let t := leakageT fops r f0 f1 (leakRatio s)
  updateSeg s (n - 1)
    (fun g =>
      { g with
        m0 := fops.sqrt f0 + t
        m1 := fops.sqrt f1 + t
        maxx := (s.segments (n - 2)).maxx
        maxy := (s.segments (n - 2)).maxy
        minx := (s.segments (n - 2)).minx
        miny := (s.segments (n - 2)).miny
        x := sx
        y := sy
        size := (s.segments (n - 2)).size + (s.segments (n - 1)).size
        horizontal := sx - (s.segments (n - 2)).x
        angle := fops.atan2 (sy - (s.segments (n - 2)).y) (sx - (s.segments (n - 2)).x) })

/-- Promote the union centroid into the outer slot (lines 416-417). -/
def storeCenter (P : Params) (s : ScanState) : ScanState :=
  updateSeg s (s.numSegments - 2)
    (fun g => { g with x := (fitSxy P s).1, y := (fitSxy P s).2 })

/-- The success branch of the shape fit (lines 353-428), applied to the
state produced by `fitPre`: mark the pair valid, recalibrate the
threshold, apply the pixel-leakage correction and store the combined
ring data in the inner slot and the union centroid in both slots. -/
def fitSuccess (P : Params) (fops : FloatOps) (s : ScanState) : ScanState :=
  storeCenter P
    (storeRing P fops (setThr (markValid (markValid s (s.numSegments - 2)) (s.numSegments - 1))))

/-- The shape-fit stage (lines 286-428), entered once the area-ratio and
concentricity tests pass: recompute centroids, fit the ellipse, and on
passing the final circularity test mark the pair valid, recalibrate the
threshold and apply the pixel-leakage correction.  Returns the updated
scan position (the fit rewinds it to end the scan when tracking) and
state. -/
def fitStage (P : Params) (fops : FloatOps) (track : Bool) (start ii : ℤ)
    (s : ScanState) : ℤ × ScanState :=
  let s1 := fitPre P fops s
  let ii2 := if track then start - 1 else ii
  if fitCirc fops s1 - 1 < circularityTolerance ∧ fitCirc fops s1 - 1 > -circularityTolerance then
    (ii2, fitSuccess P fops s1)
  else (ii2, s1)

/-- The ring-pair validation stage (lines 249-429): area ratio between
outer and inner, and concentricity in both axes; only if all pass is the
shape fit performed. -/
def pairStage (P : Params) (fops : FloatOps) (track : Bool) (start ii : ℤ)
    (s : ScanState) : ℤ × ScanState :=
  let n := s.numSegments
  let outerSeg := s.segments (n - 2)
  let innerSeg := s.segments (n - 1)
  let rr : ℚ := (outerSeg.size : ℚ) / areasRatio P / (innerSeg.size : ℚ)
  if (rr - ratioTolerance < 1 ∧ rr + ratioTolerance > 1) ∧
     |innerSeg.x - outerSeg.x| ≤
       centerDistanceToleranceAbs + centerDistanceToleranceRatio * ((outerSeg.maxx - outerSeg.minx : ℤ) : ℚ) ∧
     |innerSeg.y - outerSeg.y| ≤
       centerDistanceToleranceAbs + centerDistanceToleranceRatio * ((outerSeg.maxy - outerSeg.miny : ℤ) : ℚ) then
    fitStage P fops track start ii s
  else (ii, s)

/-- The examination part of one scan iteration (lines 230-433): if the
scan pixel is a dark seed, examine the outer region and then, on
success, the nested inner region, then the ring-pair checks.  Returns
the possibly rewound scan position and the state. -/
def scanExamine (P : Params) (fops : FloatOps) (img : CRawImage) (track : Bool)
    (start ii : ℤ) (s : ScanState) : ℤ × ScanState :=
  if s.buffer ii = -2 ∧ s.numSegments < P.maxSegments then
    let s := { s with queue := [], queueStart := 0 }
    let es := examineSegment P img s ii (outerAreaRatio P fops)
    if es.1 then
      let s := es.2
      let oseg := s.segments (s.numSegments - 1)
      let pos := qTrunc (oseg.y * ((P.width : ℤ) : ℚ) + oseg.x)
      let s := if s.buffer pos = 0 then
          { s with buffer :=
              Function.update s.buffer pos ((if pixSum img pos > s.threshold then 1 else 0) - 2) }
        else s
      if s.buffer pos = -1 ∧ s.numSegments < P.maxSegments then
        let es2 := examineSegment P img s pos (innerAreaRatio fops)
        if es2.1 then pairStage P fops track start ii es2.2
        else (ii, es2.2)
      else (ii, s)
    else (ii, es.2)
  else (ii, s)

/-- One iteration body of the raster scan (lines 225-433): classify the
scan pixel if needed, then run the examination part. -/
def scanBody (P : Params) (fops : FloatOps) (img : CRawImage) (track : Bool)
    (start ii : ℤ) (s : ScanState) : ℤ × ScanState :=
  scanExamine P fops img track start ii
    (if s.buffer ii = 0 ∧ pixSum img ii < s.threshold then
      { s with buffer := Function.update s.buffer ii (-2) }
    else s)

/-- The raster scan loop (lines 224-438): run the body, advance and wrap
the scan position, stop when it returns to the start. -/
def scanLoop (P : Params) (fops : FloatOps) (img : CRawImage) (track : Bool)
    (start : ℤ) : ℕ → ℤ → ScanState → ScanState
  | 0, _, s => s
  | fuel + 1, ii, s =>
    let bs := scanBody P fops img track start ii s
    let ii2 := bs.1 + 1
    let ii3 := if ii2 ≥ (P.len : ℤ) then 0 else ii2
    if ii3 = start then bs.2 else scanLoop P fops img track start fuel ii3 bs.2

/-- The all-defaults `SSegment`, also the `result` local of `findSegment`
after its explicit initialisation (lines 204-208). -/
def result0 : SSegment :=
  { x := 0, y := 0, round := false, valid := false }

/-- The result-selection loop (lines 439-456): the last stored segment
that is large enough and valid becomes the returned result. -/
def selectResult (s : ScanState) (debug : Bool) : SSegment :=
  (List.range s.numSegments).foldl
    (fun r i =>
      let sg := s.segments i
      if sg.size > minSize ∧ (sg.valid = true ∨ debug = true) then
        (if sg.valid = true then sg else r)
      else r)
    result0

/-- Output of one `findSegment` call: updated detector, updated frame
buffer, and the returned result segment. -/
structure FindOut where
  state : Det
  image : CRawImage
  result : SSegment

/-- Black out the pixels of the most recently examined region in the
frame (lines 481-486). -/
def blackoutImage (img : CRawImage) (q : List ℤ) (oldStart : ℕ) : CRawImage :=
  { data := (q.drop oldStart).foldl
      (fun dat pos =>
        Function.update (Function.update (Function.update dat (3 * pos + 0) 0)
          (3 * pos + 1) 0) (3 * pos + 2) 0)
      img.data }

/-- The diagnostic drawing loop (lines 488-499). -/
def drawImage (P : Params) (s : ScanState) (drawAll : Bool) (img : CRawImage) : CRawImage :=
  { data := (List.range P.len).foldl
      (fun dat i =>
        let j := s.buffer (i : ℤ)
        if j > 0 ∧ (drawAll = true ∨ (s.segments (j - 1).toNat).valid = true) then
          Function.update (Function.update (Function.update dat ((i : ℤ) * 3 + j % 3) 0)
            ((i : ℤ) * 3 + (j + 1) % 3) 255) ((i : ℤ) * 3 + (j + 2) % 3) 255
        else dat)
      img.data }

/-- The threshold-adaptation and failure-counter update at the end of
`findSegment` (lines 462-479): on success reset the counter and latch the
threshold; while below `maxFailed` alternate the binary schedule with a
retry of the last good threshold; past `maxFailed` run the schedule and
reset the counter to 0 when it reports exhaustion.
Returns (threshold, numFailed, lastThreshold, drawAll). -/
def postUpdate (numFailed maxFailed lastThreshold : ℤ) (debug drawAll : Bool)
    (scanThreshold : ℤ) (resultValid : Bool) : ℤ × ℤ × ℤ × Bool :=
  if resultValid = true then (scanThreshold, 0, scanThreshold, false)
  else if numFailed < maxFailed then
    (if numFailed % 2 = 0 then
      ((changeThresholdFn (numFailed + 1)).1, numFailed + 1, lastThreshold,
        if debug then true else drawAll)
    else
      (lastThreshold, numFailed + 1, lastThreshold,
        if debug then true else drawAll))
  else
    (((changeThresholdFn (numFailed + 1)).1,
      if (changeThresholdFn (numFailed + 1)).2 then numFailed + 1 else 0,
      lastThreshold, if debug then true else drawAll))

/-- `findSegment` (lines 203-502): one full detection pass over a frame. -/
def findSegment (P : Params) (fops : FloatOps) (D : Det) (img : CRawImage)
    (init : SSegment) : FindOut :=
  let start : ℤ :=
    if init.valid = true ∧ D.track = true then
      qTrunc ((qTrunc init.y : ℚ) * ((P.width : ℤ) : ℚ) + init.x)
    else 0
  let s0 : ScanState :=
    { buffer := D.buffer
      queue := D.queue
      queueStart := D.queueStart
      queueOldStart := D.queueOldStart
      numSegments := 0
      segments := D.segments
      threshold := D.threshold }
  let s1 := scanLoop P fops img D.track start P.len start s0
  let result := selectResult s1 D.debug
  let lastTrackOK2 : Bool :=
    decide (s1.numSegments = 2 ∧ (s1.segments 0).valid = true ∧ (s1.segments 1).valid = true)
  let post := postUpdate D.numFailed D.maxFailed D.lastThreshold D.debug D.drawAll
    s1.threshold result.valid
  let img2 := blackoutImage img s1.queue s1.queueOldStart
  let img3 := if D.draw then drawImage P s1 post.2.2.2 img2 else img2
  let D2 : Det :=
    { buffer := bufferCleanup P D.track lastTrackOK2 s1.buffer result
      queue := s1.queue
      queueStart := s1.queueStart
      queueOldStart := s1.queueOldStart
      numSegments := s1.numSegments
      segments := s1.segments
      threshold := post.1
      lastThreshold := post.2.2.1
      numFailed := post.2.1
      maxFailed := D.maxFailed
      track := D.track
      lastTrackOK := lastTrackOK2
      debug := D.debug
      draw := D.draw
      drawAll := post.2.2.2 }
  { state := D2, image := img3, result := result }

/-- Concrete rational instantiation of the abstract float primitives,
used for concrete runs: `pi` as 355/113, square root as `qSqrt`. -/
def ratFops : FloatOps := { pi := 355 / 113, sqrt := qSqrt, atan2 := fun _ _ => 0 }

/-- An outer region of size 100 next to an inner region of size 11 for a
marker with diameter ratio 1/2 (expected annulus ratio 3): the size
ratio deviates from 1 by far more than `ratioTolerance`. -/
def ratioParams : Params := { width := 4, height := 4, diameterRatio := 1 / 2, maxSegments := 20 }

/-- Scan state holding the deviating (but individually round) pair. -/
def ratioState : ScanState :=
  { buffer := fun _ => 0
    queue := []
    queueStart := 0
    queueOldStart := 0
    numSegments := 2
    segments := fun k => if k = 0 then { size := 100, round := true } else { size := 11, round := true }
    threshold := 384 }

/-! ## A concrete frame on which detection succeeds

A 12 x 11 frame holding a dark annulus (outer radius about 4.3, inner
radius about 2.5 pixels) around a bright disc, centred at pixel (5, 5),
with one extra dark pixel at offset (5, 0) that breaks the left-right
symmetry of the ring, plus a bright background.  With diameter ratio
3/5 the pair passes every test of the detector. -/

/-- Parameters of the concrete run. -/
def ringParams : Params := { width := 12, height := 11, diameterRatio := 3 / 5, maxSegments := 20 }

/-- The concrete frame: channel value 0 on the asymmetric annulus,
255 elsewhere (channel sums 0 and 765). -/
def ringImage : CRawImage :=
  { data := fun i =>
      let p := i / 3
      let dx := p % 12 - 5
      let dy := p / 12 - 5
      if (dx * dx + dy * dy ≤ 18 ∧ ¬(dx * dx + dy * dy ≤ 6)) ∨ (dx = 5 ∧ dy = 0) then 0
      else 255 }

/-- Freshly constructed detector state with tracking disabled: cleared
buffer with border sentinels, threshold `3 * 256 / 2 = 384`. -/
def ringDet : Det :=
  { buffer := cleanBuffer ringParams
    queue := []
    queueStart := 0
    queueOldStart := 0
    numSegments := 0
    segments := fun _ => {}
    threshold := 384
    lastThreshold := 384
    numFailed := 0
    maxFailed := 0
    track := false
    lastTrackOK := false
    debug := false
    draw := false
    drawAll := false }

/-- The concrete detection run. -/
def ringRun : FindOut := findSegment ringParams ratFops ringDet ringImage {}

/-- A pixel index is on the one-pixel image border. -/
def onBorder (P : Params) (i : ℤ) : Prop :=
  i % (P.width : ℤ) = 0 ∨ i % (P.width : ℤ) = (P.width : ℤ) - 1 ∨
    i / (P.width : ℤ) = 0 ∨ i / (P.width : ℤ) = (P.height : ℤ) - 1

instance (P : Params) (i : ℤ) : Decidable (onBorder P i) := by
  unfold onBorder
  infer_instance

/-- The clamped margin around a tracked segment's bounding box. -/
def inMargin (P : Params) (init : SSegment) (i : ℤ) : Prop :=
  max (init.minx - 2) 1 ≤ i % (P.width : ℤ) ∧
    i % (P.width : ℤ) < min (init.maxx + 2) ((P.width : ℤ) - 2) ∧
    max (init.miny - 2) 1 ≤ i / (P.width : ℤ) ∧
    i / (P.width : ℤ) < min (init.maxy + 2) ((P.height : ℤ) - 2)

instance (P : Params) (init : SSegment) (i : ℤ) : Decidable (inMargin P init i) := by
  unfold inMargin
  infer_instance



/-- The union pixel set of the concrete ring pair of `ringImage`: the
dark annulus (plus its extra dark pixel) as the outer region. -/
def wOuter : List ℤ :=
  (intRange 0 132).filter (fun p =>
    decide (((p % 12 - 5) * (p % 12 - 5) + (p / 12 - 5) * (p / 12 - 5) ≤ 18 ∧
      ¬((p % 12 - 5) * (p % 12 - 5) + (p / 12 - 5) * (p / 12 - 5) ≤ 6)) ∨
      (p % 12 - 5 = 5 ∧ p / 12 - 5 = 0)))

/-- The bright inner disc of the concrete ring pair. -/
def wInner : List ℤ :=
  (intRange 0 132).filter (fun p =>
    decide ((p % 12 - 5) * (p % 12 - 5) + (p / 12 - 5) * (p / 12 - 5) ≤ 6))

/-- Scan state at entry to the shape fit for the concrete ring pair:
outer pixels first, inner pixels after `queueOldStart`. -/
def wState : ScanState :=
  { buffer := fun _ => 0
    queue := wOuter ++ wInner
    queueStart := 0
    queueOldStart := wOuter.length
    numSegments := 2
    segments := fun _ => {}
    threshold := 384 }

/-- Equality of the scan-state components that the flood fill never
touches. -/
def CoreEq (s t : ScanState) : Prop :=
  t.segments = s.segments ∧ t.numSegments = s.numSegments ∧
    t.threshold = s.threshold ∧ t.queueOldStart = s.queueOldStart


/-- The segment-table invariant maintained by the raster scan: either no
slot below `numSegments` is valid, or there is a greatest valid slot `j`,
it is large, and the threshold is the mean of the brightness means of
slots `j-1` and `j`. -/
def SegInv (s : ScanState) : Prop :=
  (∀ k, k < s.numSegments → (s.segments k).valid = false) ∨
  (∃ j, 1 ≤ j ∧ j < s.numSegments ∧ (s.segments j).valid = true ∧
    minSize < (s.segments j).size ∧
    (∀ k, j < k → k < s.numSegments → (s.segments k).valid = false) ∧
    s.threshold = ((s.segments (j - 1)).mean + (s.segments j).mean) / 2)


/-- A pixel index strictly inside the border frame of the image. -/
def inFrame (P : Params) (p : ℤ) : Prop :=
  1 ≤ p % (P.width : ℤ) ∧ p % (P.width : ℤ) ≤ (P.width : ℤ) - 2 ∧
    1 ≤ p / (P.width : ℤ) ∧ p / (P.width : ℤ) ≤ (P.height : ℤ) - 2


/-- The flood-fill queue invariant: entries are distinct interior pixels
already relabeled with a positive region ordinal, and any in-range pixel
that could still be enqueued (label `ty` or unclassified `0`) is
interior. -/
def InvQ (P : Params) (ty : ℤ) (s : ScanState) : Prop :=
  s.queue.Nodup ∧
  (∀ p ∈ s.queue, 0 < s.buffer p ∧ inFrame P p) ∧
  (∀ p, 0 ≤ p → p < (P.len : ℤ) → s.buffer p = ty ∨ s.buffer p = 0 → inFrame P p)


instance (P : Params) (i : ℤ) : Decidable (inFrame P i) := by
  unfold inFrame
  infer_instance


/-- A cleared 12 x 11 buffer with border sentinels and one dark seed
classified at pixel 17, written arithmetically. -/
def qcBuffer : ℤ → ℤ := fun p =>
  if (0 ≤ p ∧ p < 132) ∧ onBorder ringParams p then -1000
  else if p = 17 then -2 else 0

/-- Scan state about to examine the seed at pixel 17. -/
def qcState : ScanState :=
  { buffer := qcBuffer
    queue := []
    queueStart := 0
    queueOldStart := 0
    numSegments := 0
    segments := fun _ => {}
    threshold := 384 }



/-! ## Basic characterisations -/

lemma mem_intRange {a b i : ℤ} : i ∈ intRange a b ↔ a ≤ i ∧ i < b := by
  unfold intRange
  constructor
  · intro h
    obtain ⟨k, hk, he⟩ := List.mem_map.mp h
    rw [List.mem_range] at hk
    omega
  · intro h
    refine List.mem_map.mpr ⟨(i - a).toNat, ?_, ?_⟩
    · rw [List.mem_range]
      omega
    · omega

lemma foldl_update2_apply (l : List ℤ) (f g : ℤ → ℤ) (c : ℤ) (b : ℤ → ℤ) (i : ℤ) :
    (l.foldl (fun acc p => Function.update (Function.update acc (f p) c) (g p) c) b) i =
      if ∃ p ∈ l, f p = i ∨ g p = i then c else b i := by
  induction l generalizing b with
  | nil => simp
  | cons x xs ih =>
    rw [List.foldl_cons, ih]
    by_cases hx : f x = i ∨ g x = i
    · conv_rhs => rw [if_pos (⟨x, List.mem_cons_self x xs, hx⟩ :
        ∃ p ∈ x :: xs, f p = i ∨ g p = i)]
      split
      · rfl
      · rw [Function.update_apply]
        by_cases hg : i = g x
        · rw [if_pos hg]
        · rw [if_neg hg, Function.update_apply]
          rcases hx with h | h
          · rw [if_pos h.symm]
          · exact absurd h.symm hg
    · push_neg at hx
      have hiff : (∃ p ∈ x :: xs, f p = i ∨ g p = i) ↔ ∃ p ∈ xs, f p = i ∨ g p = i := by
        constructor
        · rintro ⟨p, hp, hor⟩
          rcases List.mem_cons.mp hp with rfl | hp2
          · rcases hor with h | h
            · exact absurd h hx.1
            · exact absurd h hx.2
          · exact ⟨p, hp2, hor⟩
        · rintro ⟨p, hp, hor⟩
          exact ⟨p, List.mem_cons_of_mem x hp, hor⟩
      by_cases hmem : ∃ p ∈ xs, f p = i ∨ g p = i
      · rw [if_pos hmem, if_pos (hiff.mpr hmem)]
      · rw [if_neg hmem, if_neg (fun h => hmem (hiff.mp h)), Function.update_apply,
          if_neg (fun h => hx.2 (Eq.symm h)), Function.update_apply,
          if_neg (fun h => hx.1 (Eq.symm h))]

lemma foldl_update1_apply (l : List ℤ) (f : ℤ → ℤ) (c : ℤ) (b : ℤ → ℤ) (i : ℤ) :
    (l.foldl (fun acc p => Function.update acc (f p) c) b) i =
      if ∃ p ∈ l, f p = i then c else b i := by
  induction l generalizing b with
  | nil => simp
  | cons x xs ih =>
    rw [List.foldl_cons, ih]
    by_cases hx : f x = i
    · conv_rhs => rw [if_pos (⟨x, List.mem_cons_self x xs, hx⟩ : ∃ p ∈ x :: xs, f p = i)]
      split
      · rfl
      · rw [Function.update_apply, if_pos hx.symm]
    · have hiff : (∃ p ∈ x :: xs, f p = i) ↔ ∃ p ∈ xs, f p = i := by
        constructor
        · rintro ⟨p, hp, hor⟩
          rcases List.mem_cons.mp hp with rfl | hp2
          · exact absurd hor hx
          · exact ⟨p, hp2, hor⟩
        · rintro ⟨p, hp, hor⟩
          exact ⟨p, List.mem_cons_of_mem x hp, hor⟩
      by_cases hmem : ∃ p ∈ xs, f p = i
      · rw [if_pos hmem, if_pos (hiff.mpr hmem)]
      · rw [if_neg hmem, if_neg (fun h => hmem (hiff.mp h)), Function.update_apply,
          if_neg (fun h => hx (Eq.symm h))]

lemma foldl_rows_apply (ly : List ℤ) (w ix ax : ℤ) (c : ℤ) (b : ℤ → ℤ) (i : ℤ) :
    (ly.foldl (fun acc y =>
        (intRange ix ax).foldl (fun acc2 x => Function.update acc2 (y * w + x) c) acc) b) i =
      if ∃ y ∈ ly, ∃ x ∈ intRange ix ax, y * w + x = i then c else b i := by
  induction ly generalizing b with
  | nil => simp
  | cons z zs ih =>
    rw [List.foldl_cons, ih, foldl_update1_apply]
    by_cases hz : ∃ x ∈ intRange ix ax, z * w + x = i
    · conv_rhs => rw [if_pos (⟨z, List.mem_cons_self z zs, hz⟩ :
        ∃ y ∈ z :: zs, ∃ x ∈ intRange ix ax, y * w + x = i)]
      split
      · rfl
      · rfl
    · have hiff : (∃ y ∈ z :: zs, ∃ x ∈ intRange ix ax, y * w + x = i) ↔
          ∃ y ∈ zs, ∃ x ∈ intRange ix ax, y * w + x = i := by
        constructor
        · rintro ⟨y, hy, hor⟩
          rcases List.mem_cons.mp hy with rfl | hy2
          · exact absurd hor hz
          · exact ⟨y, hy2, hor⟩
        · rintro ⟨y, hy, hor⟩
          exact ⟨y, List.mem_cons_of_mem z hy, hor⟩
      by_cases hmem : ∃ y ∈ zs, ∃ x ∈ intRange ix ax, y * w + x = i
      · rw [if_pos hmem, if_pos (hiff.mpr hmem)]
      · rw [if_neg hmem, if_neg (fun h => hmem (hiff.mp h)), if_neg hz]


lemma fullCleanup_apply (P : Params) (b : ℤ → ℤ) (i : ℤ)
    (h0 : 0 ≤ i) (hlen : i < (P.len : ℤ)) (hw : 2 ≤ P.width) :
    fullCleanup P b i = if onBorder P i then -1000 else 0 := by
  have hwpos : (0 : ℤ) < (P.width : ℤ) := by exact_mod_cast Nat.lt_of_lt_of_le Nat.zero_lt_two hw
  have hlen2 : (P.len : ℤ) = (P.width : ℤ) * (P.height : ℤ) := by
    unfold Params.len
    push_cast
    ring
  have hdm := Int.ediv_add_emod i (P.width : ℤ)
  have hmod1 := Int.emod_nonneg i (by omega : (P.width : ℤ) ≠ 0)
  have hmod2 := Int.emod_lt_of_pos i hwpos
  have hdiv0 : 0 ≤ i / (P.width : ℤ) := Int.ediv_nonneg h0 (by omega)
  have hdivlt : i / (P.width : ℤ) < (P.height : ℤ) := by
    rcases lt_or_le (i / (P.width : ℤ)) (P.height : ℤ) with h | h
    · exact h
    · exfalso
      have : (P.width : ℤ) * (P.height : ℤ) ≤ (P.width : ℤ) * (i / (P.width : ℤ)) :=
        mul_le_mul_of_nonneg_left h (by omega)
      omega
  unfold fullCleanup
  rw [foldl_update2_apply (intRange 0 (P.height : ℤ)) (fun p => (P.width : ℤ) * p)
    (fun p => (P.width : ℤ) * p + (P.width : ℤ) - 1) (-1000) _ i]
  rw [foldl_update2_apply (intRange 0 (P.width : ℤ)) (fun p => p)
    (fun p => (((P.height : ℤ) - 1) * (P.width : ℤ)) + p) (-1000) _ i]
  have hcol : (∃ p ∈ intRange 0 (P.height : ℤ),
      (P.width : ℤ) * p = i ∨ (P.width : ℤ) * p + (P.width : ℤ) - 1 = i) ↔
      (i % (P.width : ℤ) = 0 ∨ i % (P.width : ℤ) = (P.width : ℤ) - 1) := by
    constructor
    · rintro ⟨p, hp, hor⟩
      rcases hor with h | h
      · left
        exact ((Int.ediv_emod_unique hwpos).mpr ⟨by linarith, by omega, by omega⟩).2
      · right
        exact ((Int.ediv_emod_unique hwpos).mpr ⟨by linarith, by omega, by omega⟩).2
    · intro hor
      refine ⟨i / (P.width : ℤ), mem_intRange.mpr ⟨hdiv0, hdivlt⟩, ?_⟩
      rcases hor with h | h
      · left
        linarith
      · right
        linarith
  have hrow : (∃ p ∈ intRange 0 (P.width : ℤ),
      p = i ∨ (((P.height : ℤ) - 1) * (P.width : ℤ)) + p = i) ↔
      (i / (P.width : ℤ) = 0 ∨ i / (P.width : ℤ) = (P.height : ℤ) - 1) := by
    constructor
    · rintro ⟨p, hp, hor⟩
      rw [mem_intRange] at hp
      rcases hor with h | h
      · left
        exact ((Int.ediv_emod_unique hwpos).mpr ⟨by linarith, by omega, by omega⟩).1
      · right
        exact ((Int.ediv_emod_unique hwpos).mpr
          ⟨by linarith, by omega, by omega⟩).1
    · intro hor
      rcases hor with h | h
      · have hdm2 := hdm
        rw [h] at hdm2
        refine ⟨i, mem_intRange.mpr ⟨by omega, by linarith⟩, Or.inl rfl⟩
      · have hdm2 := hdm
        rw [h] at hdm2
        refine ⟨i % (P.width : ℤ), mem_intRange.mpr ⟨by omega, by omega⟩, Or.inr ?_⟩
        linarith
  by_cases hc : i % (P.width : ℤ) = 0 ∨ i % (P.width : ℤ) = (P.width : ℤ) - 1
  · rw [if_pos (hcol.mpr hc), if_pos (show onBorder P i from
      Or.elim hc (fun h => Or.inl h) (fun h => Or.inr (Or.inl h)))]
  · rw [if_neg (fun h => hc (hcol.mp h))]
    by_cases hr : i / (P.width : ℤ) = 0 ∨ i / (P.width : ℤ) = (P.height : ℤ) - 1
    · rw [if_pos (hrow.mpr hr), if_pos (show onBorder P i from ?_)]
      rcases hr with h | h
      · exact Or.inr (Or.inr (Or.inl h))
      · exact Or.inr (Or.inr (Or.inr h))
    · rw [if_neg (fun h => hr (hrow.mp h)), if_pos ⟨h0, hlen⟩,
        if_neg (show ¬onBorder P i from ?_)]
      intro hb
      rcases hb with h | h | h | h
      · exact hc (Or.inl h)
      · exact hc (Or.inr h)
      · exact hr (Or.inl h)
      · exact hr (Or.inr h)


lemma marginCleanup_apply (P : Params) (b : ℤ → ℤ) (init : SSegment) (i : ℤ)
    (hw : 2 ≤ P.width) :
    marginCleanup P b init i = if inMargin P init i then 0 else b i := by
  have hwpos : (0 : ℤ) < (P.width : ℤ) := by exact_mod_cast Nat.lt_of_lt_of_le Nat.zero_lt_two hw
  have hdm := Int.ediv_add_emod i (P.width : ℤ)
  have hmod1 := Int.emod_nonneg i (by omega : (P.width : ℤ) ≠ 0)
  have hmod2 := Int.emod_lt_of_pos i hwpos
  unfold marginCleanup
  rw [foldl_rows_apply]
  have hiff : (∃ y ∈ intRange (max (init.miny - 2) 1) (min (init.maxy + 2) ((P.height : ℤ) - 2)),
      ∃ x ∈ intRange (max (init.minx - 2) 1) (min (init.maxx + 2) ((P.width : ℤ) - 2)),
        y * (P.width : ℤ) + x = i) ↔ inMargin P init i := by
    constructor
    · rintro ⟨y, hy, x, hx, he⟩
      rw [mem_intRange] at hy hx
      have hu := (Int.ediv_emod_unique hwpos).mpr
        (⟨by linarith, by omega, by omega⟩ :
          x + (P.width : ℤ) * y = i ∧ 0 ≤ x ∧ x < (P.width : ℤ))
      unfold inMargin
      omega
    · intro hm
      unfold inMargin at hm
      refine ⟨i / (P.width : ℤ), mem_intRange.mpr ⟨by omega, by omega⟩,
        i % (P.width : ℤ), mem_intRange.mpr ⟨by omega, by omega⟩, by linarith⟩
  by_cases hm : inMargin P init i
  · rw [if_pos (hiff.mpr hm), if_pos hm]
  · rw [if_neg (fun h => hm (hiff.mp h)), if_neg hm]

/-- C8: `bufferCleanup` either fully clears (border sentinels `-1000`,
all other cells 0), or clears exactly the clamped margin cells and
leaves every other cell unchanged. -/
theorem bufferCleanup_policy (P : Params) (track lastTrackOK : Bool) (b : ℤ → ℤ)
    (init : SSegment) (i : ℤ) (h0 : 0 ≤ i) (hlen : i < (P.len : ℤ)) (hw : 2 ≤ P.width) :
    bufferCleanup P track lastTrackOK b init i =
      if init.valid = false ∨ track = false ∨ lastTrackOK = false then
        (if onBorder P i then -1000 else 0)
      else if inMargin P init i then 0 else b i := by
  unfold bufferCleanup
  split
  · exact fullCleanup_apply P b i h0 hlen hw
  · exact marginCleanup_apply P b init i hw

lemma ctDivNat_one : ctDivNat 1 = 1 := by simp [ctDivNat]

lemma ctDivNat_add_two (n : ℕ) : ctDivNat (n + 2) = 2 * ctDivNat ((n + 2) / 2) := by
  rw [ctDivNat]

lemma ctDivNat_spec : ∀ n : ℕ, 1 ≤ n →
    ctDivNat n ≤ n ∧ n < 2 * ctDivNat n ∧ ∃ e : ℕ, ctDivNat n = 2 ^ e := by
  intro n
  induction n using Nat.strong_induction_on with
  | _ n ih =>
    intro hn
    match n, hn with
    | 1, _ =>
      refine ⟨le_of_eq ctDivNat_one, ?_, 0, ?_⟩
      · rw [ctDivNat_one]
        omega
      · rw [ctDivNat_one]
        norm_num
    | (m + 2), _ =>
      have hlt : (m + 2) / 2 < m + 2 := by omega
      have h1 : 1 ≤ (m + 2) / 2 := by omega
      obtain ⟨hle, hub, e, he⟩ := ih ((m + 2) / 2) hlt h1
      rw [ctDivNat_add_two]
      refine ⟨by omega, by omega, e + 1, by rw [he]; ring⟩

lemma ctDiv_spec {n : ℤ} (hn : 1 ≤ n) :
    ctDiv n ≤ n ∧ n < 2 * ctDiv n ∧ ∃ e : ℕ, ctDiv n = 2 ^ e := by
  have h1 : 1 ≤ n.toNat := by omega
  obtain ⟨hle, hub, e, he⟩ := ctDivNat_spec n.toNat h1
  unfold ctDiv
  refine ⟨by omega, by omega, e, ?_⟩
  rw [he]
  push_cast
  ring

/-- C4: for every `numFailed ≥ 1`, `changeThreshold` sets the threshold to
`3 * (step * (numFailed - div) + step / 2)` where `div` is the largest
power of two not exceeding `numFailed` and `step = 256 / div`, and it
returns true if and only if `step > 16`. -/
theorem changeThreshold_binary_schedule (n : ℤ) (hn : 1 ≤ n) :
    ∃ div : ℤ, (∃ e : ℕ, div = 2 ^ e) ∧ div ≤ n ∧ n < 2 * div ∧
      changeThresholdFn n =
        (3 * ((256 / div) * (n - div) + (256 / div) / 2), decide ((256 : ℤ) / div > 16)) := by
  obtain ⟨hle, hub, e, he⟩ := ctDiv_spec hn
  exact ⟨ctDiv n, ⟨e, he⟩, hle, hub, rfl⟩

/-- Witness for C4 at `numFailed = 3`: `div = 2`, `step = 128`, threshold
`3 * 192` (the per-channel probe 192), returning true. -/
theorem changeThreshold_binary_schedule_witness :
    (1 : ℤ) ≤ 3 ∧
      ∃ div : ℤ, (∃ e : ℕ, div = 2 ^ e) ∧ div ≤ 3 ∧ (3 : ℤ) < 2 * div ∧
        changeThresholdFn 3 =
          (3 * ((256 / div) * (3 - div) + (256 / div) / 2), decide ((256 : ℤ) / div > 16)) :=
  ⟨by decide, changeThreshold_binary_schedule 3 (by decide)⟩

lemma changeThresholdFn_true_le {m : ℤ} (h1 : 1 ≤ m)
    (h : (changeThresholdFn m).2 = true) : m ≤ 15 := by
  unfold changeThresholdFn at h
  simp only [decide_eq_true_eq] at h
  by_contra hm
  push_neg at hm
  obtain ⟨hle, hub, e, he⟩ := ctDiv_spec h1
  have hd9 : 9 ≤ ctDiv m := by omega
  have he4 : 4 ≤ e := by
    by_contra he3
    push_neg at he3
    interval_cases e <;> omega
  have h16 : (16 : ℤ) ≤ ctDiv m := by
    rw [he]
    calc (16 : ℤ) = 2 ^ 4 := by norm_num
    _ ≤ 2 ^ e := pow_le_pow_right (by norm_num) he4
  have hdp : (0 : ℤ) < ctDiv m := by omega
  have hdm := Int.ediv_add_emod 256 (ctDiv m)
  have hmod := Int.emod_nonneg 256 (by omega : ctDiv m ≠ 0)
  have hq : 17 ≤ 256 / ctDiv m := by omega
  have : (16 : ℤ) * 17 ≤ ctDiv m * (256 / ctDiv m) :=
    mul_le_mul h16 hq (by omega) (by omega)
  omega

/-- The failure counter written by `postUpdate` is bounded by
`max maxFailed 16`. -/
lemma postUpdate_numFailed_le (nf mf lt : ℤ) (dbg da : Bool) (st : ℤ) (rv : Bool)
    (h0 : 0 ≤ nf) :
    (postUpdate nf mf lt dbg da st rv).2.1 ≤ max mf 16 := by
  unfold postUpdate
  split
  · dsimp only
    exact le_max_of_le_right (by omega)
  · split
    · split
      · dsimp only
        exact le_max_of_le_left (by omega)
      · dsimp only
        exact le_max_of_le_left (by omega)
    · dsimp only
      split
      · rename_i hret
        have := changeThresholdFn_true_le (m := nf + 1) (by omega) hret
        exact le_max_of_le_right (by omega)
      · exact le_max_of_le_right (by omega)

/-- On a failed frame at or past `maxFailed` on which `changeThreshold`
reports exhaustion, `postUpdate` resets the failure counter to 0. -/
lemma postUpdate_reset (nf mf lt : ℤ) (dbg da : Bool) (st : ℤ) (rv : Bool)
    (hv : rv = false) (hm : mf ≤ nf) (hr : (changeThresholdFn (nf + 1)).2 = false) :
    (postUpdate nf mf lt dbg da st rv).2.1 = 0 := by
  unfold postUpdate
  rw [hv]
  simp only [Bool.false_eq_true, if_false]
  rw [if_neg (by omega), hr]
  simp

/-- C5: after any frame, the consecutive-failure counter is at most
`max maxFailed 16`, and on a failed frame past `maxFailed` on which the
binary schedule reports exhaustion (returns false), the counter is reset
to 0 in the same frame. -/
theorem numFailed_bounded (P : Params) (fops : FloatOps) (D : Det) (img : CRawImage)
    (init : SSegment) (h0 : 0 ≤ D.numFailed) :
    (findSegment P fops D img init).state.numFailed ≤ max D.maxFailed 16 ∧
    ((findSegment P fops D img init).result.valid = false → D.maxFailed ≤ D.numFailed →
      (changeThresholdFn (D.numFailed + 1)).2 = false →
      (findSegment P fops D img init).state.numFailed = 0) := by
  unfold findSegment
  simp only []
  exact ⟨postUpdate_numFailed_le _ _ _ _ _ _ _ h0,
    fun hv hm hr => postUpdate_reset _ _ _ _ _ _ _ hv hm hr⟩

/-- C7: a ring pair whose size ratio deviates from the expected annulus
ratio by more than `ratioTolerance` is rejected: the pair-validation
stage returns the state unchanged (no shape fit, no centroid/covariance/
eigen/leakage computation, no threshold change), both regions keep
`valid = false`, and the scan position is unchanged so the raster scan
continues with the next seed. -/
theorem ratio_rejection (P : Params) (fops : FloatOps) (track : Bool) (start ii : ℤ)
    (s : ScanState)
    (houter : (s.segments (s.numSegments - 2)).round = true)
    (hinner : (s.segments (s.numSegments - 1)).round = true)
    (hov : (s.segments (s.numSegments - 2)).valid = false)
    (hiv : (s.segments (s.numSegments - 1)).valid = false)
    (hdev : |((s.segments (s.numSegments - 2)).size : ℚ) / areasRatio P /
        ((s.segments (s.numSegments - 1)).size : ℚ) - 1| > ratioTolerance) :
    pairStage P fops track start ii s = (ii, s) ∧
    ((pairStage P fops track start ii s).2.segments (s.numSegments - 2)).valid = false ∧
    ((pairStage P fops track start ii s).2.segments (s.numSegments - 1)).valid = false := by
  have hmain : pairStage P fops track start ii s = (ii, s) := by
    unfold pairStage
    rw [if_neg]
    intro hcond
    obtain ⟨⟨h1, h2⟩, _, _⟩ := hcond
    rcases le_or_lt (((s.segments (s.numSegments - 2)).size : ℚ) / areasRatio P /
        ((s.segments (s.numSegments - 1)).size : ℚ) - 1) 0 with hle | hpos
    · rw [abs_of_nonpos hle] at hdev
      linarith
    · rw [abs_of_pos hpos] at hdev
      linarith
  refine ⟨hmain, ?_, ?_⟩
  · rw [hmain]
    exact hov
  · rw [hmain]
    exact hiv

/-- Witness for C7: the concrete deviating pair is rejected unchanged. -/
theorem ratio_rejection_witness :
    ((ratioState.segments (ratioState.numSegments - 2)).round = true ∧
      (ratioState.segments (ratioState.numSegments - 1)).round = true ∧
      (ratioState.segments (ratioState.numSegments - 2)).valid = false ∧
      (ratioState.segments (ratioState.numSegments - 1)).valid = false ∧
      |((ratioState.segments (ratioState.numSegments - 2)).size : ℚ) / areasRatio ratioParams /
          ((ratioState.segments (ratioState.numSegments - 1)).size : ℚ) - 1| > ratioTolerance) ∧
    (pairStage ratioParams ratFops false 0 0 ratioState = (0, ratioState) ∧
      ((pairStage ratioParams ratFops false 0 0 ratioState).2.segments
        (ratioState.numSegments - 2)).valid = false ∧
      ((pairStage ratioParams ratFops false 0 0 ratioState).2.segments
        (ratioState.numSegments - 1)).valid = false) := by
  have habs : |((ratioState.segments (ratioState.numSegments - 2)).size : ℚ) /
      areasRatio ratioParams / ((ratioState.segments (ratioState.numSegments - 1)).size : ℚ) - 1| >
      ratioTolerance := by
    have h : ((ratioState.segments (ratioState.numSegments - 2)).size : ℚ) /
        areasRatio ratioParams /
        ((ratioState.segments (ratioState.numSegments - 1)).size : ℚ) - 1 = 67 / 33 := by
      norm_num [ratioState, ratioParams, areasRatio]
    rw [h, abs_of_pos (by norm_num : (67 / 33 : ℚ) > 0)]
    norm_num [ratioTolerance]
  exact ⟨⟨by decide, by decide, by decide, by decide, habs⟩,
    ratio_rejection ratioParams ratFops false 0 0 ratioState (by decide) (by decide)
      (by decide) (by decide) habs⟩

/-- C2 (amended): the pixel-leakage term `t` is the smaller root of the
quadratic `(1-r) t^2 + (-(m0i+m1i)-(m0o+m1o) r) t + (m0i m1i - m0o m1o r)`
and for an ideal ring pair (raw covariance eigenvalues
`f0 = f1 = (R/2)^2` for true outer radius `R`, size ratio `d^2` for the
configured diameter ratio `d`, exact square roots) the term is 0 and the
two corrected semi-axis fields of the result - which the code both sets
to the corrected OUTER estimates `sqrt f0 + t` and `sqrt f1 + t`, not to
an outer/inner pair - equal `R/2` each, the raw outer semi-axis scale,
not the pair of true radii. -/
theorem leakage_smaller_root_ideal (fops : FloatOps) (d R : ℚ)
    (hd0 : 0 < d) (hd1 : d < 1) (hR : 0 < R)
    (h1 : fops.sqrt (R * R / 4) = R / 2)
    (h2 : fops.sqrt (d * d) = d)
    (h3 : fops.sqrt ((d * R + R * (d * d)) * (d * R + R * (d * d))) = d * R + R * (d * d)) :
    leakageT fops (d * d) (R * R / 4) (R * R / 4) (d * d) = 0 ∧
    fops.sqrt (R * R / 4) + leakageT fops (d * d) (R * R / 4) (R * R / 4) (d * d) = R / 2 ∧
    (1 - d * d) * leakageT fops (d * d) (R * R / 4) (R * R / 4) (d * d) ^ 2 +
      (-(d * (R / 2) + d * (R / 2)) - (R / 2 + R / 2) * (d * d)) *
        leakageT fops (d * d) (R * R / 4) (R * R / 4) (d * d) +
      (d * (R / 2) * (d * (R / 2)) - R / 2 * (R / 2) * (d * d)) = 0 ∧
    (∀ u : ℚ, (1 - d * d) * u ^ 2 +
        (-(d * (R / 2) + d * (R / 2)) - (R / 2 + R / 2) * (d * d)) * u +
        (d * (R / 2) * (d * (R / 2)) - R / 2 * (R / 2) * (d * d)) = 0 →
      leakageT fops (d * d) (R * R / 4) (R * R / 4) (d * d) ≤ u) := by
  have hT : leakageT fops (d * d) (R * R / 4) (R * R / 4) (d * d) = 0 := by
    unfold leakageT
    simp only [h1, h2]
    rw [show (-(d * (R / 2) + d * (R / 2)) - (R / 2 + R / 2) * (d * d)) *
          (-(d * (R / 2) + d * (R / 2)) - (R / 2 + R / 2) * (d * d)) -
          4 * (1 - d * d) * (d * (R / 2) * (d * (R / 2)) - R / 2 * (R / 2) * (d * d)) =
        (d * R + R * (d * d)) * (d * R + R * (d * d)) from by ring]
    rw [h3]
    rw [show -(-(d * (R / 2) + d * (R / 2)) - (R / 2 + R / 2) * (d * d)) -
        (d * R + R * (d * d)) = 0 from by ring]
    exact zero_div _
  refine ⟨hT, by rw [hT, h1]; ring, by rw [hT]; ring, ?_⟩
  intro u hu
  rw [hT]
  have hfac : u * ((1 - d * d) * u + (-(d * (R / 2) + d * (R / 2)) - (R / 2 + R / 2) * (d * d))) = 0 := by
    linear_combination hu
  rcases mul_eq_zero.mp hfac with h | h
  · exact le_of_eq h.symm
  · have ha : (0 : ℚ) < 1 - d * d := by nlinarith
    have hb : (1 - d * d) * u = d * R + R * (d * d) := by linarith
    have hpos : (0 : ℚ) < d * R + R * (d * d) := by positivity
    nlinarith

/-- C2 counterexample: for the ideal ring pair with true radii
`r_outer = 2` and `r_inner = 6/5` at the configured diameter ratio
`d = 3/5` (raw eigenvalues `f0 = f1 = (r_outer/2)^2 = 1`, size ratio
`d^2 = 9/25`), the correction term is 0 and both corrected semi-axis
fields of the result equal 1 - they do not equal the true radii
`(2, 6/5)` up to any small tolerance (the errors are 1 and 1/5). -/
theorem leakage_counterexample :
    leakageT ratFops (3 / 5 * (3 / 5)) (2 * 2 / 4) (2 * 2 / 4) (3 / 5 * (3 / 5)) = 0 ∧
    ratFops.sqrt (2 * 2 / 4) +
      leakageT ratFops (3 / 5 * (3 / 5)) (2 * 2 / 4) (2 * 2 / 4) (3 / 5 * (3 / 5)) = 1 ∧
    ratFops.sqrt (2 * 2 / 4) +
      leakageT ratFops (3 / 5 * (3 / 5)) (2 * 2 / 4) (2 * 2 / 4) (3 / 5 * (3 / 5)) ≠ 2 ∧
    ratFops.sqrt (2 * 2 / 4) +
      leakageT ratFops (3 / 5 * (3 / 5)) (2 * 2 / 4) (2 * 2 / 4) (3 / 5 * (3 / 5)) ≠ 6 / 5 ∧
    (3 : ℚ) / 5 * 2 = 6 / 5 := by
  refine ⟨by decide!, by decide!, by decide!, by decide!, by decide!⟩

/-- Witness for the amended C2 at `d = 3/5`, `R = 2` with the concrete
rational square root (exact on all three needed arguments). -/
theorem leakage_smaller_root_ideal_witness :
    ((0 : ℚ) < 3 / 5 ∧ (3 / 5 : ℚ) < 1 ∧ (0 : ℚ) < 2 ∧
      ratFops.sqrt (2 * 2 / 4) = 2 / 2 ∧ ratFops.sqrt (3 / 5 * (3 / 5)) = 3 / 5 ∧
      ratFops.sqrt ((3 / 5 * 2 + 2 * (3 / 5 * (3 / 5))) * (3 / 5 * 2 + 2 * (3 / 5 * (3 / 5)))) =
        3 / 5 * 2 + 2 * (3 / 5 * (3 / 5))) ∧
    leakageT ratFops (3 / 5 * (3 / 5)) (2 * 2 / 4) (2 * 2 / 4) (3 / 5 * (3 / 5)) = 0 :=
  ⟨⟨by decide!, by decide!, by decide!, by decide!, by decide!, by decide!⟩,
    (leakage_smaller_root_ideal ratFops (3 / 5) 2 (by decide!) (by decide!) (by decide!)
      (by decide!) (by decide!) (by decide!)).1⟩


/-- Witness for C8 at the concrete cell 13 of the 12 x 11 frame with a
constant-5 prior buffer. -/
theorem bufferCleanup_policy_witness :
    ((0 : ℤ) ≤ 13 ∧ (13 : ℤ) < (ringParams.len : ℤ) ∧ 2 ≤ ringParams.width) ∧
    bufferCleanup ringParams false false (fun _ => 5) {} 13 =
      (if ({} : SSegment).valid = false ∨ false = false ∨ false = false then
        (if onBorder ringParams 13 then -1000 else 0)
      else if inMargin ringParams ({} : SSegment) 13 then 0 else (fun _ : ℤ => (5 : ℤ)) 13) :=
  ⟨⟨by decide, by decide, by decide⟩,
    bufferCleanup_policy ringParams false false (fun _ => 5) {} 13 (by decide) (by decide)
      (by decide)⟩

/-- C1 counterexample: on the concrete asymmetric-ring frame the
detection succeeds, yet the returned center x is the mean over all
queued pixels of the pair (outer annulus and inner disc together,
namely 315/62), while the centroid of the inner disc's pixels alone
(the window `[queueOldStart, queueEnd)` of the final queue) is exactly
5; the two differ. -/
theorem center_not_inner_centroid :
    ringRun.result.valid = true ∧
    ringRun.result.x = 315 / 62 ∧ ringRun.result.y = 5 ∧
    ringRun.result.x =
      ((ringRun.state.queue.map (fun p => ((p % 12 : ℤ) : ℚ))).sum) /
        (ringRun.state.queue.length : ℚ) ∧
    (((ringRun.state.queue.drop ringRun.state.queueOldStart).map
        (fun p => ((p % 12 : ℤ) : ℚ))).sum) /
      ((ringRun.state.queue.drop ringRun.state.queueOldStart).length : ℚ) = 5 ∧
    ringRun.result.x ≠ 5 := by
  set_option maxRecDepth 1000000 in
  set_option maxHeartbeats 4000000 in
  decide!

lemma selectResult_debug_irrelevant (s : ScanState) (d1 d2 : Bool) :
    selectResult s d1 = selectResult s d2 := by
  unfold selectResult
  induction List.range s.numSegments using List.reverseRecOn with
  | nil => rfl
  | append_singleton xs x ih =>
    rw [List.foldl_append, List.foldl_append, ih]
    simp only [List.foldl_cons, List.foldl_nil]
    by_cases hv : (s.segments x).valid = true
    · simp [hv]
    · simp [hv]

lemma postUpdate_debug_irrelevant (nf mf lt st : ℤ) (d1 d2 da : Bool) (rv : Bool) :
    (postUpdate nf mf lt d1 da st rv).1 = (postUpdate nf mf lt d2 da st rv).1 ∧
    (postUpdate nf mf lt d1 da st rv).2.1 = (postUpdate nf mf lt d2 da st rv).2.1 := by
  unfold postUpdate
  by_cases h1 : rv = true
  · rw [if_pos h1, if_pos h1]
    exact ⟨rfl, rfl⟩
  · rw [if_neg h1, if_neg h1]
    by_cases h2 : nf < mf
    · rw [if_pos h2, if_pos h2]
      by_cases h3 : nf % 2 = 0
      · rw [if_pos h3, if_pos h3]
        exact ⟨rfl, rfl⟩
      · rw [if_neg h3, if_neg h3]
        exact ⟨rfl, rfl⟩
    · rw [if_neg h2, if_neg h2]
      exact ⟨rfl, rfl⟩

/-- C9: the `debug` and `draw` flags have no effect on the returned
result, the adapted threshold, or the failure counter - two calls on the
same frame and state differing only in those flags return the same
result segment (same validity, center, axes, orientation, size) and
leave equal thresholds and failure counters. -/
theorem debug_draw_no_effect (P : Params) (fops : FloatOps) (D : Det)
    (img : CRawImage) (init : SSegment) (d1 w1 d2 w2 : Bool) :
    (findSegment P fops { D with debug := d1, draw := w1 } img init).result =
      (findSegment P fops { D with debug := d2, draw := w2 } img init).result ∧
    (findSegment P fops { D with debug := d1, draw := w1 } img init).state.threshold =
      (findSegment P fops { D with debug := d2, draw := w2 } img init).state.threshold ∧
    (findSegment P fops { D with debug := d1, draw := w1 } img init).state.numFailed =
      (findSegment P fops { D with debug := d2, draw := w2 } img init).state.numFailed := by
  unfold findSegment
  simp only []
  rw [selectResult_debug_irrelevant _ d1 d2]
  refine ⟨rfl, (postUpdate_debug_irrelevant _ _ _ _ d1 d2 _ _).1,
    (postUpdate_debug_irrelevant _ _ _ _ d1 d2 _ _).2⟩


lemma updateSeg_self (s : ScanState) (j : ℕ) (f : SSegment → SSegment) :
    (updateSeg s j f).segments j = f (s.segments j) := by
  simp [updateSeg]

lemma updateSeg_other (s : ScanState) (j : ℕ) (f : SSegment → SSegment) (k : ℕ) (h : k ≠ j) :
    (updateSeg s j f).segments k = s.segments k := by
  simp [updateSeg, Function.update_noteq h]

lemma coreEq_rfl (s : ScanState) : CoreEq s s := ⟨rfl, rfl, rfl, rfl⟩

lemma coreEq_trans {s t u : ScanState} (h1 : CoreEq s t) (h2 : CoreEq t u) : CoreEq s u :=
  ⟨h2.1.trans h1.1, h2.2.1.trans h1.2.1, h2.2.2.1.trans h1.2.2.1, h2.2.2.2.trans h1.2.2.2⟩

lemma touchNeighbor_coreEq (img : CRawImage) (ty lab : ℤ) (sb : ScanState × Box) (pos : ℤ)
    (updBox : Box → Box) :
    CoreEq sb.1 (touchNeighbor img ty lab sb pos updBox).1 := by
  unfold touchNeighbor
  simp only []
  repeat' split
  all_goals exact ⟨rfl, rfl, rfl, rfl⟩

lemma bfsStep_coreEq (P : Params) (img : CRawImage) (ty lab : ℤ) (sb : ScanState × Box) :
    CoreEq sb.1 (bfsStep P img ty lab sb).1 := by
  unfold bfsStep
  simp only []
  refine coreEq_trans ?_ (touchNeighbor_coreEq _ _ _ _ _ _)
  refine coreEq_trans ?_ (touchNeighbor_coreEq _ _ _ _ _ _)
  refine coreEq_trans ?_ (touchNeighbor_coreEq _ _ _ _ _ _)
  refine coreEq_trans ?_ (touchNeighbor_coreEq _ _ _ _ _ _)
  exact ⟨rfl, rfl, rfl, rfl⟩

lemma bfsRun_coreEq (P : Params) (img : CRawImage) (ty lab : ℤ) :
    ∀ (fuel : ℕ) (sb : ScanState × Box), CoreEq sb.1 (bfsRun P img ty lab fuel sb).1 := by
  intro fuel
  induction fuel with
  | zero => exact fun sb => coreEq_rfl _
  | succ n ih =>
    intro sb
    unfold bfsRun
    split
    · exact coreEq_trans (bfsStep_coreEq P img ty lab sb) (ih (bfsStep P img ty lab sb))
    · exact coreEq_rfl _

lemma examSetup_numSegments (P : Params) (s : ScanState) (ii : ℤ) :
    (examSetup P s ii).numSegments = s.numSegments + 1 := rfl

lemma examSetup_threshold (P : Params) (s : ScanState) (ii : ℤ) :
    (examSetup P s ii).threshold = s.threshold := rfl

lemma examSetup_queueOldStart (P : Params) (s : ScanState) (ii : ℤ) :
    (examSetup P s ii).queueOldStart = s.queueStart := rfl

lemma examSetup_queue (P : Params) (s : ScanState) (ii : ℤ) :
    (examSetup P s ii).queue = s.queue ++ [ii] := rfl

lemma examSetup_segments_other (P : Params) (s : ScanState) (ii : ℤ) (k : ℕ)
    (h : k ≠ s.numSegments) :
    (examSetup P s ii).segments k = s.segments k := by
  unfold examSetup
  simp only [updateSeg, Function.update_noteq h]

lemma examSetup_segments_self (P : Params) (s : ScanState) (ii : ℤ) :
    ((examSetup P s ii).segments s.numSegments).valid = false := by
  unfold examSetup
  simp [updateSeg]

lemma examFinish_spec (P : Params) (img : CRawImage) (ar : ℚ) (slot : ℕ) (ty : ℤ)
    (sb : ScanState × Box) :
    (examFinish P img ar slot ty sb).2.numSegments = sb.1.numSegments ∧
    (examFinish P img ar slot ty sb).2.threshold = sb.1.threshold ∧
    (examFinish P img ar slot ty sb).2.queue = sb.1.queue ∧
    (∀ k, k ≠ slot → (examFinish P img ar slot ty sb).2.segments k = sb.1.segments k) ∧
    ((examFinish P img ar slot ty sb).2.segments slot).valid = (sb.1.segments slot).valid ∧
    ((examFinish P img ar slot ty sb).2.segments slot).size =
      (sb.1.queue.length : ℤ) - (sb.1.queueOldStart : ℤ) ∧
    ((examFinish P img ar slot ty sb).1 = true →
      minSize < (sb.1.queue.length : ℤ) - (sb.1.queueOldStart : ℤ)) := by
  unfold examFinish
  simp only []
  split
  · split
    · next hsz hrd =>
      refine ⟨rfl, rfl, rfl, ?_, ?_, ?_, fun _ => hsz⟩
      · intro k hk
        simp only [updateSeg, Function.update_noteq hk]
      · simp [updateSeg]
      · simp [updateSeg]
    · next hsz hrd =>
      refine ⟨rfl, rfl, rfl, ?_, ?_, ?_, by simp⟩
      · intro k hk
        simp only [updateSeg, Function.update_noteq hk]
      · simp [updateSeg]
      · simp [updateSeg]
  · next hsz =>
    refine ⟨rfl, rfl, rfl, ?_, ?_, ?_, by simp⟩
    · intro k hk
      simp only [updateSeg, Function.update_noteq hk]
    · simp [updateSeg]
    · simp [updateSeg]

lemma examineSegment_spec (P : Params) (img : CRawImage) (s : ScanState) (ii : ℤ) (ar : ℚ) :
    (examineSegment P img s ii ar).2.numSegments = s.numSegments + 1 ∧
    (examineSegment P img s ii ar).2.threshold = s.threshold ∧
    (∀ k, k ≠ s.numSegments → (examineSegment P img s ii ar).2.segments k = s.segments k) ∧
    ((examineSegment P img s ii ar).2.segments s.numSegments).valid = false ∧
    ((examineSegment P img s ii ar).1 = true →
      minSize < ((examineSegment P img s ii ar).2.segments s.numSegments).size) := by
  have hc := bfsRun_coreEq P img (s.buffer ii) ((s.numSegments : ℤ) + 1) P.len
    (examSetup P s ii, examBox P ii)
  set sb := bfsRun P img (s.buffer ii) ((s.numSegments : ℤ) + 1) P.len
    (examSetup P s ii, examBox P ii) with hsb
  have hf := examFinish_spec P img ar s.numSegments (s.buffer ii) sb
  have he : examineSegment P img s ii ar =
      examFinish P img ar s.numSegments (s.buffer ii) sb := rfl
  rw [he]
  obtain ⟨hseg, hnum, hthr, hqos⟩ := hc
  refine ⟨?_, ?_, ?_, ?_, ?_⟩
  · rw [hf.1, hnum, examSetup_numSegments]
  · rw [hf.2.1, hthr, examSetup_threshold]
  · intro k hk
    rw [hf.2.2.2.1 k hk, hseg, examSetup_segments_other P s ii k hk]
  · rw [hf.2.2.2.2.1, hseg, examSetup_segments_self]
  · intro hok
    rw [hf.2.2.2.2.2.1]
    exact hf.2.2.2.2.2.2 hok

lemma segInv_congr {s t : ScanState}
    (hseg : ∀ k, ((t.segments k).valid, (t.segments k).size, (t.segments k).mean) =
      ((s.segments k).valid, (s.segments k).size, (s.segments k).mean))
    (hnum : t.numSegments = s.numSegments) (hthr : t.threshold = s.threshold)
    (h : SegInv s) : SegInv t := by
  obtain h | ⟨j, hj1, hjn, hjv, hjs, habove, hthr0⟩ := h
  · left
    intro k hk
    have := hseg k
    simp only [Prod.mk.injEq] at this
    rw [this.1]
    exact h k (hnum ▸ hk)
  · right
    refine ⟨j, hj1, hnum ▸ hjn, ?_, ?_, ?_, ?_⟩
    · have := hseg j
      simp only [Prod.mk.injEq] at this
      rw [this.1]
      exact hjv
    · have := hseg j
      simp only [Prod.mk.injEq] at this
      rw [this.2.1]
      exact hjs
    · intro k hk1 hk2
      have := hseg k
      simp only [Prod.mk.injEq] at this
      rw [this.1]
      exact habove k hk1 (hnum ▸ hk2)
    · have h1 := hseg (j - 1)
      have h2 := hseg j
      simp only [Prod.mk.injEq] at h1 h2
      rw [hthr, h1.2.2, h2.2.2]
      exact hthr0

lemma segInv_exam_extend {s t : ScanState}
    (hnum : t.numSegments = s.numSegments + 1) (hthr : t.threshold = s.threshold)
    (hseg : ∀ k, k ≠ s.numSegments → t.segments k = s.segments k)
    (hfresh : (t.segments s.numSegments).valid = false)
    (h : SegInv s) : SegInv t := by
  obtain h | ⟨j, hj1, hjn, hjv, hjs, habove, hthr0⟩ := h
  · left
    intro k hk
    rcases Nat.lt_or_ge k s.numSegments with hlt | hge
    · rw [hseg k (Nat.ne_of_lt hlt)]
      exact h k hlt
    · have : k = s.numSegments := by omega
      rw [this]
      exact hfresh
  · right
    refine ⟨j, hj1, by omega, ?_, ?_, ?_, ?_⟩
    · rw [hseg j (by omega)]
      exact hjv
    · rw [hseg j (by omega)]
      exact hjs
    · intro k hk1 hk2
      rcases Nat.lt_or_ge k s.numSegments with hlt | hge
      · rw [hseg k (Nat.ne_of_lt hlt)]
        exact habove k hk1 hlt
      · have : k = s.numSegments := by omega
        rw [this]
        exact hfresh
    · rw [hthr, hseg (j - 1) (by omega), hseg j (by omega)]
      exact hthr0

lemma fitPre_core (P : Params) (fops : FloatOps) (s : ScanState) :
    (fitPre P fops s).numSegments = s.numSegments ∧
    (fitPre P fops s).threshold = s.threshold ∧
    (fitPre P fops s).queue = s.queue ∧
    (fitPre P fops s).queueOldStart = s.queueOldStart := ⟨rfl, rfl, rfl, rfl⟩

lemma fitPre_fields (P : Params) (fops : FloatOps) (s : ScanState) (k : ℕ) :
    (((fitPre P fops s).segments k).valid, ((fitPre P fops s).segments k).size,
      ((fitPre P fops s).segments k).mean) =
    (((s.segments k).valid, (s.segments k).size, (s.segments k).mean)) := by
  unfold fitPre
  simp only []
  by_cases h1 : k = s.numSegments - 1
  · subst h1
    by_cases h2 : s.numSegments - 1 = s.numSegments - 2
    · rw [updateSeg_self]
      rw [h2, updateSeg_self]
    · rw [updateSeg_self, updateSeg_other _ _ _ _ h2]
  · rw [updateSeg_other _ _ _ _ h1]
    by_cases h2 : k = s.numSegments - 2
    · subst h2
      rw [updateSeg_self]
    · rw [updateSeg_other _ _ _ _ h2]

lemma updateSeg_threshold (s : ScanState) (j : ℕ) (f : SSegment → SSegment) :
    (updateSeg s j f).threshold = s.threshold := rfl

lemma updateSeg_mean_invar (s : ScanState) (j : ℕ) (f : SSegment → SSegment)
    (hf : ∀ g, (f g).mean = g.mean) (k : ℕ) :
    ((updateSeg s j f).segments k).mean = (s.segments k).mean := by
  by_cases h : k = j
  · subst h
    rw [updateSeg_self, hf]
  · rw [updateSeg_other _ _ _ _ h]

lemma updateSeg_size_invar (s : ScanState) (j : ℕ) (f : SSegment → SSegment)
    (hf : ∀ g, (f g).size = g.size) (k : ℕ) :
    ((updateSeg s j f).segments k).size = (s.segments k).size := by
  by_cases h : k = j
  · subst h
    rw [updateSeg_self, hf]
  · rw [updateSeg_other _ _ _ _ h]

lemma markValid_numSegments (s : ScanState) (k : ℕ) :
    (markValid s k).numSegments = s.numSegments := rfl

lemma markValid_threshold (s : ScanState) (k : ℕ) :
    (markValid s k).threshold = s.threshold := rfl

lemma markValid_mean (s : ScanState) (k j : ℕ) :
    ((markValid s k).segments j).mean = (s.segments j).mean := by
  unfold markValid
  by_cases h : j = k
  · subst h
    rw [updateSeg_self]
  · rw [updateSeg_other _ _ _ _ h]

lemma markValid_size (s : ScanState) (k j : ℕ) :
    ((markValid s k).segments j).size = (s.segments j).size := by
  unfold markValid
  by_cases h : j = k
  · subst h
    rw [updateSeg_self]
  · rw [updateSeg_other _ _ _ _ h]

lemma markValid_self (s : ScanState) (k j : ℕ) (h : j = k) :
    ((markValid s k).segments j).valid = true := by
  subst h
  unfold markValid
  rw [updateSeg_self]

lemma markValid_other (s : ScanState) (k j : ℕ) (h : j ≠ k) :
    (markValid s k).segments j = s.segments j := by
  unfold markValid
  rw [updateSeg_other _ _ _ _ h]

lemma setThr_segments (s : ScanState) : (setThr s).segments = s.segments := rfl

lemma setThr_numSegments (s : ScanState) : (setThr s).numSegments = s.numSegments := rfl

lemma setThr_threshold (s : ScanState) :
    (setThr s).threshold =
      ((s.segments (s.numSegments - 2)).mean + (s.segments (s.numSegments - 1)).mean) / 2 := rfl

lemma storeRing_numSegments (P : Params) (fops : FloatOps) (s : ScanState) :
    (storeRing P fops s).numSegments = s.numSegments := rfl

lemma storeRing_threshold (P : Params) (fops : FloatOps) (s : ScanState) :
    (storeRing P fops s).threshold = s.threshold := rfl

lemma storeRing_fields (P : Params) (fops : FloatOps) (s : ScanState) (j : ℕ) :
    ((storeRing P fops s).segments j).valid = (s.segments j).valid ∧
      ((storeRing P fops s).segments j).mean = (s.segments j).mean := by
  unfold storeRing
  dsimp only []
  by_cases h : j = s.numSegments - 1
  · subst h
    rw [updateSeg_self]
    exact ⟨rfl, rfl⟩
  · rw [updateSeg_other _ _ _ _ h]
    exact ⟨rfl, rfl⟩

lemma storeRing_size_self (P : Params) (fops : FloatOps) (s : ScanState) (j : ℕ)
    (h : j = s.numSegments - 1) :
    ((storeRing P fops s).segments j).size =
      (s.segments (s.numSegments - 2)).size + (s.segments (s.numSegments - 1)).size := by
  subst h
  unfold storeRing
  dsimp only []
  rw [updateSeg_self]

lemma storeRing_other (P : Params) (fops : FloatOps) (s : ScanState) (j : ℕ)
    (h : j ≠ s.numSegments - 1) :
    (storeRing P fops s).segments j = s.segments j := by
  unfold storeRing
  dsimp only []
  rw [updateSeg_other _ _ _ _ h]

lemma storeCenter_numSegments (P : Params) (s : ScanState) :
    (storeCenter P s).numSegments = s.numSegments := rfl

lemma storeCenter_threshold (P : Params) (s : ScanState) :
    (storeCenter P s).threshold = s.threshold := rfl

lemma storeCenter_fields (P : Params) (s : ScanState) (j : ℕ) :
    ((storeCenter P s).segments j).valid = (s.segments j).valid ∧
      ((storeCenter P s).segments j).mean = (s.segments j).mean ∧
      ((storeCenter P s).segments j).size = (s.segments j).size := by
  unfold storeCenter
  by_cases h : j = s.numSegments - 2
  · subst h
    rw [updateSeg_self]
    exact ⟨rfl, rfl, rfl⟩
  · rw [updateSeg_other _ _ _ _ h]
    exact ⟨rfl, rfl, rfl⟩

lemma fitSuccess_numSegments (P : Params) (fops : FloatOps) (s : ScanState) :
    (fitSuccess P fops s).numSegments = s.numSegments := rfl

lemma fitSuccess_mean (P : Params) (fops : FloatOps) (s : ScanState) (k : ℕ) :
    ((fitSuccess P fops s).segments k).mean = (s.segments k).mean := by
  unfold fitSuccess
  rw [(storeCenter_fields _ _ _).2.1, (storeRing_fields _ _ _ _).2, setThr_segments,
    markValid_mean, markValid_mean]

lemma fitSuccess_threshold (P : Params) (fops : FloatOps) (s : ScanState) :
    (fitSuccess P fops s).threshold =
      ((s.segments (s.numSegments - 2)).mean + (s.segments (s.numSegments - 1)).mean) / 2 := by
  unfold fitSuccess
  rw [storeCenter_threshold, storeRing_threshold, setThr_threshold]
  rw [markValid_mean, markValid_mean, markValid_mean, markValid_mean]
  simp only [markValid_numSegments]

lemma fitSuccess_valid_top (P : Params) (fops : FloatOps) (s : ScanState) (k : ℕ)
    (h2 : 2 ≤ s.numSegments) (hk : k = s.numSegments - 1) :
    ((fitSuccess P fops s).segments k).valid = true := by
  unfold fitSuccess
  rw [(storeCenter_fields _ _ _).1, (storeRing_fields _ _ _ _).1, setThr_segments]
  exact markValid_self _ _ _ hk

lemma fitSuccess_size_top (P : Params) (fops : FloatOps) (s : ScanState) (k : ℕ)
    (h2 : 2 ≤ s.numSegments) (hk : k = s.numSegments - 1) :
    ((fitSuccess P fops s).segments k).size =
      (s.segments (s.numSegments - 2)).size + (s.segments (s.numSegments - 1)).size := by
  unfold fitSuccess
  rw [(storeCenter_fields _ _ _).2.2]
  rw [storeRing_size_self _ _ _ _
    (by simp only [setThr_numSegments, markValid_numSegments]; exact hk)]
  simp only [setThr_segments, setThr_numSegments, markValid_numSegments, markValid_size]

lemma minSize_nonneg : (0 : ℤ) ≤ minSize := by norm_num [minSize]

lemma fitStage_segInv (P : Params) (fops : FloatOps) (track : Bool) (start ii : ℤ)
    (s : ScanState) (h : SegInv s) (h2 : 2 ≤ s.numSegments)
    (hsz2 : minSize < (s.segments (s.numSegments - 2)).size)
    (hsz1 : minSize < (s.segments (s.numSegments - 1)).size) :
    SegInv (fitStage P fops track start ii s).2 := by
  unfold fitStage
  dsimp only []
  split
  · -- success branch
    dsimp only []
    right
    have hpre2 : (fitPre P fops s).numSegments = s.numSegments := (fitPre_core P fops s).1
    have hnum : (fitSuccess P fops (fitPre P fops s)).numSegments = s.numSegments :=
      (fitSuccess_numSegments _ _ _).trans hpre2
    refine ⟨s.numSegments - 1, by omega, by rw [hnum]; omega, ?_, ?_, ?_, ?_⟩
    · exact fitSuccess_valid_top P fops (fitPre P fops s) _ (by rw [hpre2]; omega)
        (by rw [hpre2])
    · rw [fitSuccess_size_top P fops (fitPre P fops s) _ (by rw [hpre2]; omega) (by rw [hpre2])]
      have e2 := (fitPre_fields P fops s (s.numSegments - 2))
      have e1 := (fitPre_fields P fops s (s.numSegments - 1))
      simp only [Prod.mk.injEq] at e1 e2
      rw [hpre2, e2.2.1, e1.2.1]
      have := minSize_nonneg
      omega
    · intro k hk1 hk2
      rw [hnum] at hk2
      omega
    · have heq : s.numSegments - 1 - 1 = s.numSegments - 2 := by omega
      rw [heq, fitSuccess_threshold]
      have m2 := fitSuccess_mean P fops (fitPre P fops s) (s.numSegments - 2)
      have m1 := fitSuccess_mean P fops (fitPre P fops s) (s.numSegments - 1)
      rw [hpre2]
      rw [m2, m1]
  · -- circularity failed: only fitPre applied
    exact segInv_congr (fitPre_fields P fops s) (fitPre_core P fops s).1
      (fitPre_core P fops s).2.1 h

lemma pairStage_segInv (P : Params) (fops : FloatOps) (track : Bool) (start ii : ℤ)
    (s : ScanState) (h : SegInv s) (h2 : 2 ≤ s.numSegments)
    (hsz2 : minSize < (s.segments (s.numSegments - 2)).size)
    (hsz1 : minSize < (s.segments (s.numSegments - 1)).size) :
    SegInv (pairStage P fops track start ii s).2 := by
  unfold pairStage
  dsimp only []
  split
  · exact fitStage_segInv P fops track start ii s h h2 hsz2 hsz1
  · exact h

lemma innerPart_segInv (P : Params) (fops : FloatOps) (img : CRawImage) (track : Bool)
    (start ii pos : ℤ) (u : ScanState) (h : SegInv u)
    (hsz : minSize < (u.segments (u.numSegments - 1)).size) (hn : 1 ≤ u.numSegments) :
    SegInv (if u.buffer pos = -1 ∧ u.numSegments < P.maxSegments then
        (if (examineSegment P img u pos (innerAreaRatio fops)).1 = true then
          pairStage P fops track start ii (examineSegment P img u pos (innerAreaRatio fops)).2
        else (ii, (examineSegment P img u pos (innerAreaRatio fops)).2))
      else (ii, u)).2 := by
  have spec2 := examineSegment_spec P img u pos (innerAreaRatio fops)
  set es2 := examineSegment P img u pos (innerAreaRatio fops) with hes2
  have hE2 : SegInv es2.2 :=
    segInv_exam_extend spec2.1 spec2.2.1 spec2.2.2.1 spec2.2.2.2.1 h
  split
  case isFalse h3 => exact h
  case isTrue h3 =>
    split
    case isFalse h4 => exact hE2
    case isTrue h4 =>
      refine pairStage_segInv P fops track start ii es2.2 hE2 ?_ ?_ ?_
      · rw [spec2.1]
        omega
      · have hidx : es2.2.numSegments - 2 = u.numSegments - 1 := by
          rw [spec2.1]
          omega
        rw [hidx, spec2.2.2.1 (u.numSegments - 1) (by omega)]
        exact hsz
      · have hidx : es2.2.numSegments - 1 = u.numSegments := by
          rw [spec2.1]
          omega
        rw [hidx]
        exact spec2.2.2.2.2 h4

lemma scanExamine_segInv (P : Params) (fops : FloatOps) (img : CRawImage) (track : Bool)
    (start ii : ℤ) (t : ScanState) (h : SegInv t) :
    SegInv (scanExamine P fops img track start ii t).2 := by
  unfold scanExamine
  dsimp only []
  split
  case isFalse h1 => exact h
  case isTrue h1 =>
    have hQ : SegInv { t with queue := [], queueStart := 0 } :=
      segInv_congr (fun k => rfl) rfl rfl h
    have spec1 := examineSegment_spec P img { t with queue := [], queueStart := 0 } ii
      (outerAreaRatio P fops)
    dsimp only [] at spec1
    set es := examineSegment P img { t with queue := [], queueStart := 0 } ii
      (outerAreaRatio P fops) with hes
    have hE : SegInv es.2 :=
      segInv_exam_extend spec1.1 spec1.2.1 spec1.2.2.1 spec1.2.2.2.1 hQ
    split
    case isFalse h2 => exact hE
    case isTrue h2 =>
      refine innerPart_segInv P fops img track start ii _ _ ?_ ?_ ?_
      · refine segInv_congr (fun k => ?_) ?_ ?_ hE
        · split
          all_goals rfl
        · split
          all_goals rfl
        · split
          all_goals rfl
      · have hidx : es.2.numSegments - 1 = t.numSegments := by
          rw [spec1.1]
          omega
        split
        all_goals try dsimp only []
        all_goals rw [hidx]
        all_goals exact spec1.2.2.2.2 h2
      · split
        all_goals try dsimp only []
        all_goals rw [spec1.1]
        all_goals omega

lemma scanBody_segInv (P : Params) (fops : FloatOps) (img : CRawImage) (track : Bool)
    (start ii : ℤ) (s : ScanState) (h : SegInv s) :
    SegInv (scanBody P fops img track start ii s).2 := by
  unfold scanBody
  refine scanExamine_segInv P fops img track start ii _
    (segInv_congr (fun k => ?_) ?_ ?_ h)
  · split
    all_goals rfl
  · split
    all_goals rfl
  · split
    all_goals rfl

lemma scanLoop_segInv (P : Params) (fops : FloatOps) (img : CRawImage) (track : Bool)
    (start : ℤ) : ∀ (fuel : ℕ) (ii : ℤ) (s : ScanState), SegInv s →
    SegInv (scanLoop P fops img track start fuel ii s) := by
  intro fuel
  induction fuel with
  | zero => exact fun ii s h => h
  | succ n ih =>
    intro ii s h
    unfold scanLoop
    dsimp only []
    split
    all_goals split
    all_goals first
      | exact scanBody_segInv P fops img track start ii s h
      | exact ih _ _ (scanBody_segInv P fops img track start ii s h)

lemma foldl_sel_none (s : ScanState) (l : List ℕ) (r : SSegment)
    (hl : ∀ i ∈ l, ¬((s.segments i).size > minSize ∧
      ((s.segments i).valid = true ∨ False))) :
    l.foldl (fun r i =>
      let sg := s.segments i
      if sg.size > minSize ∧ (sg.valid = true ∨ false = true) then
        (if sg.valid = true then sg else r)
      else r) r = r := by
  induction l generalizing r with
  | nil => rfl
  | cons a tl ih =>
    simp only [List.foldl_cons]
    rw [if_neg]
    · exact ih r (fun i hi => hl i (List.mem_cons_of_mem a hi))
    · intro hc
      exact hl a (List.mem_cons_self a tl) (by simpa using hc)

lemma selectResult_of_greatest (s : ScanState) (j : ℕ)
    (hjn : j < s.numSegments)
    (hjv : (s.segments j).valid = true)
    (hjs : minSize < (s.segments j).size)
    (habove : ∀ k, j < k → k < s.numSegments → (s.segments k).valid = false) :
    selectResult s false = s.segments j := by
  unfold selectResult
  have hsplit : List.range s.numSegments =
      List.range (j + 1) ++ (List.range (s.numSegments - (j + 1))).map (fun x => (j + 1) + x) := by
    rw [← List.range_add]
    congr 1
    omega
  rw [hsplit, List.foldl_append]
  rw [List.range_succ, List.foldl_append]
  simp only [List.foldl_cons, List.foldl_nil]
  rw [if_pos ⟨hjs, Or.inl hjv⟩, if_pos hjv]
  refine foldl_sel_none s _ _ ?_
  intro i hi
  obtain ⟨x, hx, rfl⟩ := List.mem_map.mp hi
  have hxlt := List.mem_range.mp hx
  intro hc
  rcases hc.2 with hv | hf
  · rw [habove (j + 1 + x) (by omega) (by omega)] at hv
    exact Bool.false_ne_true hv
  · exact hf

lemma selectResult_all_invalid (s : ScanState)
    (h : ∀ k, k < s.numSegments → (s.segments k).valid = false) :
    selectResult s false = result0 := by
  unfold selectResult
  refine foldl_sel_none s _ _ ?_
  intro i hi hc
  rcases hc.2 with hv | hf
  · rw [h i (List.mem_range.mp hi)] at hv
    exact Bool.false_ne_true hv
  · exact hf

lemma selectResult_segInv (s : ScanState) (h : SegInv s) (d : Bool)
    (hv : (selectResult s d).valid = true) :
    ∃ j, 1 ≤ j ∧ selectResult s d = s.segments j ∧
      s.threshold = ((s.segments (j - 1)).mean + (s.segments j).mean) / 2 := by
  rw [selectResult_debug_irrelevant s d false] at hv ⊢
  obtain hall | ⟨j, hj1, hjn, hjv, hjs, habove, hthr⟩ := h
  · rw [selectResult_all_invalid s hall] at hv
    exact absurd hv (by simp [result0])
  · exact ⟨j, hj1, (selectResult_of_greatest s j hjn hjv hjs habove).symm ▸ rfl, hthr⟩

lemma postUpdate_valid (nf mf lt : ℤ) (dbg da : Bool) (st : ℤ) :
    postUpdate nf mf lt dbg da st true = (st, 0, st, false) := by
  unfold postUpdate
  simp

/-- C6: on every frame on which `findSegment` returns a valid result,
the failure counter ends the call at 0 and the detector threshold ends
the call recalibrated to the mean of the two matched regions' mean
channel-sum brightnesses: the result is some stored segment `j` (the
inner slot of the matched pair) and the threshold equals
`(mean (j-1) + mean j) / 2`. -/
theorem valid_result_resets_counter_and_threshold (P : Params) (fops : FloatOps) (D : Det)
    (img : CRawImage) (init : SSegment)
    (hv : (findSegment P fops D img init).result.valid = true) :
    (findSegment P fops D img init).state.numFailed = 0 ∧
    ∃ j : ℕ, 1 ≤ j ∧
      (findSegment P fops D img init).result = (findSegment P fops D img init).state.segments j ∧
      (findSegment P fops D img init).state.threshold =
        (((findSegment P fops D img init).state.segments (j - 1)).mean +
          ((findSegment P fops D img init).state.segments j).mean) / 2 := by
  unfold findSegment at hv ⊢
  dsimp only [] at hv ⊢
  rw [hv]
  rw [postUpdate_valid]
  dsimp only []
  refine ⟨rfl, ?_⟩
  have hinv : SegInv (scanLoop P fops img D.track
      (if init.valid = true ∧ D.track = true then
        qTrunc ((qTrunc init.y : ℚ) * ((P.width : ℤ) : ℚ) + init.x)
      else 0) P.len
      (if init.valid = true ∧ D.track = true then
        qTrunc ((qTrunc init.y : ℚ) * ((P.width : ℤ) : ℚ) + init.x)
      else 0)
      { buffer := D.buffer
        queue := D.queue
        queueStart := D.queueStart
        queueOldStart := D.queueOldStart
        numSegments := 0
        segments := D.segments
        threshold := D.threshold }) := by
    refine scanLoop_segInv P fops img D.track _ P.len _ _ ?_
    exact Or.inl (fun k hk => absurd hk (Nat.not_lt_zero k))
  obtain ⟨j, hj1, hsel, hthr⟩ := selectResult_segInv _ hinv D.debug hv
  exact ⟨j, hj1, hsel, hthr⟩

lemma take_drop_map_sum (l : List ℤ) (n : ℕ) (f : ℤ → ℚ) :
    ((l.drop n).map f).sum + ((l.take n).map f).sum = (l.map f).sum := by
  rw [add_comm, ← List.sum_append, ← List.map_append, List.take_append_drop]

lemma fitSxy_congr (P : Params) (a b : ScanState) (hq : a.queue = b.queue)
    (ho : a.queueOldStart = b.queueOldStart) : fitSxy P a = fitSxy P b := by
  unfold fitSxy
  rw [hq, ho]

lemma fitSxy_union (P : Params) (s : ScanState) :
    fitSxy P s =
      (((s.queue.map (fun p => ((p % (P.width : ℤ) : ℤ) : ℚ))).sum) / (s.queue.length : ℚ),
       ((s.queue.map (fun p => ((p / (P.width : ℤ) : ℤ) : ℚ))).sum) / (s.queue.length : ℚ)) := by
  unfold fitSxy
  dsimp only []
  rw [take_drop_map_sum, take_drop_map_sum]

lemma storeCenter_other2 (P : Params) (s : ScanState) (j : ℕ) (h : j ≠ s.numSegments - 2) :
    (storeCenter P s).segments j = s.segments j := by
  unfold storeCenter
  rw [updateSeg_other _ _ _ _ h]

lemma storeCenter_x (P : Params) (s : ScanState) (j : ℕ) (hj : j = s.numSegments - 2) :
    ((storeCenter P s).segments j).x = (fitSxy P s).1 ∧
      ((storeCenter P s).segments j).y = (fitSxy P s).2 := by
  subst hj
  unfold storeCenter
  rw [updateSeg_self]
  exact ⟨rfl, rfl⟩

lemma storeRing_x (P : Params) (fops : FloatOps) (s : ScanState) (j : ℕ)
    (hj : j = s.numSegments - 1) :
    ((storeRing P fops s).segments j).x = (fitSxy P s).1 ∧
      ((storeRing P fops s).segments j).y = (fitSxy P s).2 := by
  subst hj
  unfold storeRing
  dsimp only []
  rw [updateSeg_self]
  exact ⟨rfl, rfl⟩

lemma fitSuccess_center_top (P : Params) (fops : FloatOps) (s : ScanState) :
    ((fitSuccess P fops s).segments (s.numSegments - 1)).x = (fitSxy P s).1 ∧
      ((fitSuccess P fops s).segments (s.numSegments - 1)).y = (fitSxy P s).2 := by
  unfold fitSuccess
  have hq1 : (storeRing P fops (setThr (markValid (markValid s (s.numSegments - 2))
      (s.numSegments - 1)))).queue = s.queue := rfl
  have ho1 : (storeRing P fops (setThr (markValid (markValid s (s.numSegments - 2))
      (s.numSegments - 1)))).queueOldStart = s.queueOldStart := rfl
  have hq2 : (setThr (markValid (markValid s (s.numSegments - 2))
      (s.numSegments - 1))).queue = s.queue := rfl
  have ho2 : (setThr (markValid (markValid s (s.numSegments - 2))
      (s.numSegments - 1))).queueOldStart = s.queueOldStart := rfl
  by_cases h : s.numSegments - 1 = s.numSegments - 2
  · have hc := storeCenter_x P (storeRing P fops (setThr (markValid (markValid s
      (s.numSegments - 2)) (s.numSegments - 1)))) (s.numSegments - 1) (by rw [h]; rfl)
    rw [hc.1, hc.2]
    rw [fitSxy_congr P _ s hq1 ho1]
    exact ⟨rfl, rfl⟩
  · rw [storeCenter_other2 _ _ _ (by exact h)]
    have hr := storeRing_x P fops (setThr (markValid (markValid s (s.numSegments - 2))
      (s.numSegments - 1))) (s.numSegments - 1) rfl
    rw [hr.1, hr.2]
    rw [fitSxy_congr P _ s hq2 ho2]
    exact ⟨rfl, rfl⟩

/-- C1 (amended): on a successful fit the centre stored in the inner
result slot is the centroid of the union of the two regions' pixels, not
of the inner disc alone. -/
theorem fit_center_union_mean (P : Params) (fops : FloatOps) (track : Bool) (start ii : ℤ)
    (s : ScanState)
    (hnotval : (s.segments (s.numSegments - 1)).valid = false)
    (hval : ((fitStage P fops track start ii s).2.segments (s.numSegments - 1)).valid = true) :
    ((fitStage P fops track start ii s).2.segments (s.numSegments - 1)).x =
      ((s.queue.map (fun p => ((p % (P.width : ℤ) : ℤ) : ℚ))).sum) / (s.queue.length : ℚ) ∧
    ((fitStage P fops track start ii s).2.segments (s.numSegments - 1)).y =
      ((s.queue.map (fun p => ((p / (P.width : ℤ) : ℤ) : ℚ))).sum) / (s.queue.length : ℚ) := by
  unfold fitStage at hval ⊢
  dsimp only [] at hval ⊢
  have hpren : (fitPre P fops s).numSegments = s.numSegments := (fitPre_core P fops s).1
  have hpreq : (fitPre P fops s).queue = s.queue := (fitPre_core P fops s).2.2.1
  have hpreo : (fitPre P fops s).queueOldStart = s.queueOldStart := (fitPre_core P fops s).2.2.2
  split at hval
  case isTrue hc =>
    rw [if_pos hc]
    dsimp only []
    have hct := fitSuccess_center_top P fops (fitPre P fops s)
    rw [hpren] at hct
    rw [hct.1, hct.2, fitSxy_congr P _ s hpreq hpreo, fitSxy_union]
    exact ⟨rfl, rfl⟩
  case isFalse hc =>
    rw [if_neg hc]
    dsimp only [] at hval
    have hf := fitPre_fields P fops s (s.numSegments - 1)
    simp only [Prod.mk.injEq] at hf
    rw [hf.1, hnotval] at hval
    exact absurd hval (by simp)

lemma inFrame_neighbors (P : Params) (p : ℤ) (h : inFrame P p) :
    (0 ≤ p ∧ p < (P.len : ℤ)) ∧
    (0 ≤ p + 1 ∧ p + 1 < (P.len : ℤ)) ∧
    (0 ≤ p - 1 ∧ p - 1 < (P.len : ℤ)) ∧
    (0 ≤ p + (P.width : ℤ) ∧ p + (P.width : ℤ) < (P.len : ℤ)) ∧
    (0 ≤ p - (P.width : ℤ) ∧ p - (P.width : ℤ) < (P.len : ℤ)) := by
  obtain ⟨hr1, hr2, hq1, hq2⟩ := h
  set w : ℤ := (P.width : ℤ) with hw
  set q : ℤ := p / w with hq
  set r : ℤ := p % w with hr
  have hdm : w * q + r = p := Int.ediv_add_emod p w
  have hw3 : 3 ≤ w := by omega
  have hh3 : 3 ≤ (P.height : ℤ) := by omega
  have hlen : (P.len : ℤ) = w * (P.height : ℤ) := by
    rw [hw]
    unfold Params.len
    push_cast
    ring
  have h1 : w * 1 ≤ w * q := by
    refine mul_le_mul_of_nonneg_left hq1 (by omega)
  have h2 : w * q ≤ w * ((P.height : ℤ) - 2) := by
    refine mul_le_mul_of_nonneg_left hq2 (by omega)
  rw [hlen]
  constructor
  · constructor
    · nlinarith
    · nlinarith
  constructor
  · constructor
    · nlinarith
    · nlinarith
  constructor
  · constructor
    · nlinarith
    · nlinarith
  constructor
  · constructor
    · nlinarith
    · nlinarith
  · constructor
    · nlinarith
    · nlinarith

lemma touchNeighbor_invQ (P : Params) (img : CRawImage) (ty lab : ℤ)
    (sb : ScanState × Box) (pos : ℤ) (updBox : Box → Box)
    (hty : ty < 0) (hlab : 0 < lab)
    (hpos : 0 ≤ pos ∧ pos < (P.len : ℤ))
    (h : InvQ P ty sb.1) :
    InvQ P ty (touchNeighbor img ty lab sb pos updBox).1 := by
  obtain ⟨hnd, hent, hcand⟩ := h
  unfold touchNeighbor
  dsimp only []
  split
  case isTrue hc0 =>
    -- lazy classification wrote (indicator - 2) at pos
    set c : ℤ := (if pixSum img pos > sb.1.threshold then 1 else 0) - 2 with hcdef
    have hcneg : c < 0 := by
      rw [hcdef]
      split
      all_goals omega
    have hposint : inFrame P pos := hcand pos hpos.1 hpos.2 (Or.inr hc0)
    have hposnotin : pos ∉ sb.1.queue := fun hmem => by
      have := (hent pos hmem).1
      omega
    split
    case isTrue hcty =>
      dsimp only [] at hcty
      rw [Function.update_same] at hcty
      refine ⟨?_, ?_, ?_⟩
      · exact List.Nodup.append hnd (List.nodup_singleton pos)
          (by simpa using hposnotin)
      · intro p hp
        rcases List.mem_append.mp hp with hp | hp
        · have hpne : p ≠ pos := fun he => hposnotin (he ▸ hp)
          dsimp only []
          rw [Function.update_noteq hpne, Function.update_noteq hpne]
          exact hent p hp
        · have hpe : p = pos := by simpa using hp
          subst hpe
          dsimp only []
          rw [Function.update_same]
          exact ⟨hlab, hposint⟩
      · intro p hp0 hpl hpc
        dsimp only [] at hpc
        by_cases hpe : p = pos
        · subst hpe
          exact hposint
        · rw [Function.update_noteq hpe, Function.update_noteq hpe] at hpc
          exact hcand p hp0 hpl hpc
    case isFalse hcty =>
      dsimp only [] at hcty
      rw [Function.update_same] at hcty
      refine ⟨hnd, ?_, ?_⟩
      · intro p hp
        have hpne : p ≠ pos := fun he => by
          have := (hent p hp).1
          rw [he] at this
          omega
        dsimp only []
        rw [Function.update_noteq hpne]
        exact hent p hp
      · intro p hp0 hpl hpc
        dsimp only [] at hpc
        by_cases hpe : p = pos
        · subst hpe
          exact hposint
        · rw [Function.update_noteq hpe] at hpc
          exact hcand p hp0 hpl hpc
  case isFalse hc0 =>
    split
    case isTrue hcty =>
      have hposint : inFrame P pos := hcand pos hpos.1 hpos.2 (Or.inl hcty)
      have hposnotin : pos ∉ sb.1.queue := fun hmem => by
        have := (hent pos hmem).1
        omega
      refine ⟨?_, ?_, ?_⟩
      · exact List.Nodup.append hnd (List.nodup_singleton pos)
          (by simpa using hposnotin)
      · intro p hp
        rcases List.mem_append.mp hp with hp | hp
        · have hpne : p ≠ pos := fun he => hposnotin (he ▸ hp)
          dsimp only []
          rw [Function.update_noteq hpne]
          exact hent p hp
        · have hpe : p = pos := by simpa using hp
          subst hpe
          dsimp only []
          rw [Function.update_same]
          exact ⟨hlab, hposint⟩
      · intro p hp0 hpl hpc
        dsimp only [] at hpc
        by_cases hpe : p = pos
        · subst hpe
          exact hposint
        · rw [Function.update_noteq hpe] at hpc
          exact hcand p hp0 hpl hpc
    case isFalse hcty =>
      exact ⟨hnd, hent, hcand⟩

lemma updateSeg_queue (s : ScanState) (j : ℕ) (f : SSegment → SSegment) :
    (updateSeg s j f).queue = s.queue := rfl

lemma updateSeg_buffer (s : ScanState) (j : ℕ) (f : SSegment → SSegment) :
    (updateSeg s j f).buffer = s.buffer := rfl

lemma bfsStep_invQ (P : Params) (img : CRawImage) (ty lab : ℤ) (sb : ScanState × Box)
    (hty : ty < 0) (hlab : 0 < lab) (h : InvQ P ty sb.1)
    (hlt : sb.1.queueStart < sb.1.queue.length) :
    InvQ P ty (bfsStep P img ty lab sb).1 := by
  unfold bfsStep
  dsimp only []
  have hmem : sb.1.queue.getD sb.1.queueStart 0 ∈ sb.1.queue := by
    rw [List.getD_eq_getElem _ _ hlt]
    exact List.getElem_mem hlt
  have hin := (h.2.1 _ hmem).2
  have hnb := inFrame_neighbors P _ hin
  refine touchNeighbor_invQ P img ty lab _ _ _ hty hlab hnb.2.2.2.1
    (touchNeighbor_invQ P img ty lab _ _ _ hty hlab hnb.2.2.2.2
      (touchNeighbor_invQ P img ty lab _ _ _ hty hlab hnb.2.2.1
        (touchNeighbor_invQ P img ty lab _ _ _ hty hlab hnb.2.1
          ⟨h.1, h.2.1, h.2.2⟩)))

lemma bfsRun_invQ (P : Params) (img : CRawImage) (ty lab : ℤ)
    (hty : ty < 0) (hlab : 0 < lab) :
    ∀ (fuel : ℕ) (sb : ScanState × Box), InvQ P ty sb.1 →
      InvQ P ty (bfsRun P img ty lab fuel sb).1 := by
  intro fuel
  induction fuel with
  | zero => exact fun sb h => h
  | succ n ih =>
    intro sb h
    unfold bfsRun
    split
    case isTrue hlt => exact ih _ (bfsStep_invQ P img ty lab sb hty hlab h hlt)
    case isFalse hlt => exact h

lemma nodup_range_length (l : List ℤ) (L : ℤ) (hL : 0 ≤ L) (hd : l.Nodup)
    (hin : ∀ p ∈ l, 0 ≤ p ∧ p < L) : (l.length : ℤ) ≤ L := by
  have hsub : l.toFinset ⊆ Finset.Ico 0 L := by
    intro p hp
    rw [List.mem_toFinset] at hp
    rw [Finset.mem_Ico]
    exact hin p hp
  have hcard := Finset.card_le_card hsub
  rw [List.toFinset_card_of_nodup hd, Int.card_Ico] at hcard
  have := Int.toNat_of_nonneg hL
  omega

lemma examSetup_invQ (P : Params) (s : ScanState) (ii : ℤ)
    (hty : s.buffer ii < 0) (hii : 0 ≤ ii ∧ ii < (P.len : ℤ))
    (h : InvQ P (s.buffer ii) s) :
    InvQ P (s.buffer ii) (examSetup P s ii) := by
  obtain ⟨hnd, hent, hcand⟩ := h
  have hiint : inFrame P ii := hcand ii hii.1 hii.2 (Or.inl rfl)
  have hnotin : ii ∉ s.queue := fun hmem => by
    have := (hent ii hmem).1
    omega
  unfold examSetup
  dsimp only []
  refine ⟨?_, ?_, ?_⟩
  · rw [updateSeg_queue]
    exact List.Nodup.append hnd (List.nodup_singleton ii) (by simpa using hnotin)
  · intro p hp
    rw [updateSeg_queue] at hp
    rw [updateSeg_buffer]
    rcases List.mem_append.mp hp with hp | hp
    · have hpne : p ≠ ii := fun he => hnotin (he ▸ hp)
      dsimp only []
      rw [Function.update_noteq hpne]
      exact hent p hp
    · have hpe : p = ii := by simpa using hp
      subst hpe
      dsimp only []
      rw [Function.update_same]
      exact ⟨by positivity, hiint⟩
  · intro p hp0 hpl hpc
    rw [updateSeg_buffer] at hpc
    dsimp only [] at hpc
    by_cases hpe : p = ii
    · subst hpe
      exact hiint
    · rw [Function.update_noteq hpe] at hpc
      exact hcand p hp0 hpl hpc

/-- C10: within one region examination, every pixel is enqueued at most
once (the queue is duplicate-free) and the queue end never exceeds
`width * height`, because a pixel is enqueued only while its label
equals the fill type and it is relabeled to the positive region ordinal
in the same step. -/
theorem flood_fill_enqueue_once (P : Params) (img : CRawImage) (s : ScanState) (ii : ℤ)
    (ar : ℚ) (hty : s.buffer ii < 0) (hii : 0 ≤ ii ∧ ii < (P.len : ℤ))
    (hinv : InvQ P (s.buffer ii) s) :
    (examineSegment P img s ii ar).2.queue.Nodup ∧
    ((examineSegment P img s ii ar).2.queue.length : ℤ) ≤ (P.len : ℤ) := by
  have hsetup := examSetup_invQ P s ii hty hii hinv
  have hbfs := bfsRun_invQ P img (s.buffer ii) ((s.numSegments : ℤ) + 1) hty (by positivity)
    P.len (examSetup P s ii, examBox P ii) hsetup
  have hq := (examFinish_spec P img ar s.numSegments (s.buffer ii)
    (bfsRun P img (s.buffer ii) ((s.numSegments : ℤ) + 1) P.len
      (examSetup P s ii, examBox P ii))).2.2.1
  have he : examineSegment P img s ii ar =
      examFinish P img ar s.numSegments (s.buffer ii)
        (bfsRun P img (s.buffer ii) ((s.numSegments : ℤ) + 1) P.len
          (examSetup P s ii, examBox P ii)) := rfl
  rw [he, hq]
  refine ⟨hbfs.1, ?_⟩
  refine nodup_range_length _ _ (by positivity) hbfs.1 ?_
  intro p hp
  exact (inFrame_neighbors P p (hbfs.2.1 p hp).2).1

theorem flood_fill_enqueue_once_witness :
    (qcState.buffer 17 < 0 ∧ ((0:ℤ) ≤ 17 ∧ (17:ℤ) < (ringParams.len : ℤ)) ∧
      InvQ ringParams (qcState.buffer 17) qcState) ∧
    ((examineSegment ringParams ringImage qcState 17
        (outerAreaRatio ringParams ratFops)).2.queue.Nodup ∧
      (((examineSegment ringParams ringImage qcState 17
        (outerAreaRatio ringParams ratFops)).2.queue.length : ℤ) ≤ (ringParams.len : ℤ))) := by
  have h1 : qcState.buffer 17 < 0 := by decide
  have h2 : (0:ℤ) ≤ 17 ∧ (17:ℤ) < (ringParams.len : ℤ) := by decide
  have h3 : InvQ ringParams (qcState.buffer 17) qcState := by
    refine ⟨List.nodup_nil, ?_, ?_⟩
    · intro p hp
      exact absurd hp (List.not_mem_nil p)
    · intro p h0 hl hc
      have hn : p.toNat < 132 := by
        have : (ringParams.len : ℤ) = 132 := by decide
        omega
      have hp : p = (p.toNat : ℤ) := (Int.toNat_of_nonneg h0).symm
      rw [hp] at hc ⊢
      revert hc
      revert hn
      generalize p.toNat = n
      revert n
      decide
  exact ⟨⟨h1, h2, h3⟩,
    flood_fill_enqueue_once ringParams ringImage qcState 17 _ h1 h2 h3⟩

set_option maxRecDepth 1000000 in
set_option maxHeartbeats 4000000 in
theorem valid_result_resets_counter_and_threshold_witness :
    (findSegment ringParams ratFops ringDet ringImage {}).result.valid = true ∧
    ((findSegment ringParams ratFops ringDet ringImage {}).state.numFailed = 0 ∧
      ∃ j : ℕ, 1 ≤ j ∧
        (findSegment ringParams ratFops ringDet ringImage {}).result =
          (findSegment ringParams ratFops ringDet ringImage {}).state.segments j ∧
        (findSegment ringParams ratFops ringDet ringImage {}).state.threshold =
          (((findSegment ringParams ratFops ringDet ringImage {}).state.segments (j - 1)).mean +
            ((findSegment ringParams ratFops ringDet ringImage {}).state.segments j).mean) / 2) := by
  have h : (findSegment ringParams ratFops ringDet ringImage {}).result.valid = true := by decide!
  exact ⟨h, valid_result_resets_counter_and_threshold ringParams ratFops ringDet ringImage {} h⟩



set_option maxRecDepth 1000000 in
set_option maxHeartbeats 4000000 in
theorem fit_center_union_mean_witness :
    ((wState.segments (wState.numSegments - 1)).valid = false ∧
      ((fitStage ringParams ratFops false 0 0 wState).2.segments
        (wState.numSegments - 1)).valid = true) ∧
    (((fitStage ringParams ratFops false 0 0 wState).2.segments (wState.numSegments - 1)).x =
        ((wState.queue.map (fun p => ((p % (ringParams.width : ℤ) : ℤ) : ℚ))).sum) /
          (wState.queue.length : ℚ) ∧
      ((fitStage ringParams ratFops false 0 0 wState).2.segments (wState.numSegments - 1)).y =
        ((wState.queue.map (fun p => ((p / (ringParams.width : ℤ) : ℤ) : ℚ))).sum) /
          (wState.queue.length : ℚ)) := by
  have h1 : (wState.segments (wState.numSegments - 1)).valid = false := rfl
  have h2 : ((fitStage ringParams ratFops false 0 0 wState).2.segments
      (wState.numSegments - 1)).valid = true := by decide!
  exact ⟨⟨h1, h2⟩, fit_center_union_mean ringParams ratFops false 0 0 wState h1 h2⟩

theorem numFailed_bounded_witness :
    (0 ≤ ringDet.numFailed) ∧
    ((findSegment ringParams ratFops ringDet ringImage {}).state.numFailed ≤
        max ringDet.maxFailed 16 ∧
      ((findSegment ringParams ratFops ringDet ringImage {}).result.valid = false →
        ringDet.maxFailed ≤ ringDet.numFailed →
        (changeThresholdFn (ringDet.numFailed + 1)).2 = false →
        (findSegment ringParams ratFops ringDet ringImage {}).state.numFailed = 0)) :=
  ⟨by decide, numFailed_bounded ringParams ratFops ringDet ringImage {} (by decide)⟩
